import Mathlib

set_option autoImplicit false

/-!
Verification of the report loader/normalizer of `src/app.py` (`load_data`,
lines 82-162).  Text is modelled as `List Char`; the Python code is embedded
definition by definition:

* `pyStrip` is Python's `str.strip()` restricted to the ASCII whitespace
  characters it removes;
* `splitOnNl` is Python's `str.split('\n')`;
* `scanStep`/`scanFrom`/`codeParts` is the quote-aware character loop of
  `load_data` (app.py lines 102-118);
* `repairPart` is the re-quoting step (app.py lines 121-127);
* `fixLine`, `fixedLinesList`, `fixedContent` assemble the corrected
  document (app.py lines 94-132).

Reference computations used to state the claims (the quote-aware split as a
direct recursion, and a standard quoted-CSV parse) are defined separately
and compared with the embedded code.
-/

namespace SecDash

/-- ASCII whitespace stripped by Python's `str.strip()`. -/
def isPySpace (c : Char) : Bool :=
  c = ' ' || c = '\t' || c = '\n' || c = '\r' || c = '\x0b' || c = '\x0c'

/-- Python `str.strip()`: drop leading and trailing whitespace. -/
def pyStrip (l : List Char) : List Char :=
  ((l.dropWhile isPySpace).reverse.dropWhile isPySpace).reverse

/-- Prepend a character to the first chunk of a chunk list. -/
def consHead (c : Char) : List (List Char) → List (List Char)
  | [] => [[c]]
  | f :: t => (c :: f) :: t

/-- Prepend a string to the first chunk of a chunk list. -/
def consHeadL (x : List Char) : List (List Char) → List (List Char)
  | [] => [x]
  | f :: t => (x ++ f) :: t

/-- Python `content.split('\n')`. -/
def splitOnNl : List Char → List (List Char)
  | [] => [[]]
  | c :: r => if c = '\n' then [] :: splitOnNl r else consHead c (splitOnNl r)

/-- Python `','.join(...)` / `'\n'.join(...)`. -/
def joinSep (sep : List Char) : List (List Char) → List Char
  | [] => []
  | [x] => x
  | x :: xs => x ++ sep ++ joinSep sep xs

/-- One iteration of the character loop of `load_data` (app.py lines
106-114).  State: `(parts, current_part, in_quotes)`. -/
def scanStep (st : List (List Char) × List Char × Bool) (c : Char) :
    List (List Char) × List Char × Bool :=
  if c = '"' then (st.1, st.2.1 ++ ['"'], !st.2.2)
  else if c = ',' ∧ st.2.2 = false then (st.1 ++ [st.2.1], [], st.2.2)
  else (st.1, st.2.1 ++ [c], st.2.2)

/-- Run the character loop over a line from a given state. -/
def scanFrom (st : List (List Char) × List Char × Bool) (l : List Char) :
    List (List Char) × List Char × Bool :=
  l.foldl scanStep st

/-- The `parts` list built for a data line: the loop of app.py lines
102-114 followed by `if current_part: parts.append(...)` (lines 117-118):
the final buffer is appended only when it is non-empty. -/
def codeParts (l : List Char) : List (List Char) :=
  let st := scanFrom ([], [], false) l
  st.1 ++ (if st.2.1 = [] then [] else [st.2.1])

/-- The repair of one field (app.py lines 123-127): strip it, and wrap it
in quotes when it is non-empty, does not already start with `"`, and
contains a comma or a colon. -/
def repairPart (part : List Char) : List Char :=
  if pyStrip part ≠ [] ∧ (pyStrip part).head? ≠ some '"' ∧
      (',' ∈ pyStrip part ∨ ':' ∈ pyStrip part)
  then '"' :: pyStrip part ++ ['"'] else pyStrip part

/-- The repaired form of one data line (app.py lines 101-129). -/
def fixLine (l : List Char) : List Char :=
  joinSep [','] ((codeParts l).map repairPart)

/-- `content.strip().split('\n')` (app.py line 93). -/
def linesOf (content : List Char) : List (List Char) :=
  splitOnNl (pyStrip content)

/-- The `fixed_lines` list (app.py lines 94-129): line 0 (the header) is
kept unchanged, every other line is repaired. -/
def fixedLinesList (content : List Char) : List (List Char) :=
  match linesOf content with
  | [] => []
  | h :: t => h :: t.map fixLine

/-- The corrected document `'\n'.join(fixed_lines)` (app.py line 132). -/
def fixedContent (content : List Char) : List Char :=
  joinSep ['\n'] (fixedLinesList content)

/-! ### Reference computations (from the claims' wording)

`refSplitAux` is the quote-aware split exactly as the spec words it: split
on `,` with a boolean in-quotes flag toggling on `"`, all characters
retained, every field emitted (including a trailing empty one). -/

/-- Reference quote-aware split on `,` with a toggling in-quotes flag. -/
def refSplitAux : Bool → List Char → List (List Char)
  | _, [] => [[]]
  | inq, c :: r =>
    if c = '"' then consHead '"' (refSplitAux (!inq) r)
    else if c = ',' ∧ inq = false then [] :: refSplitAux inq r
    else consHead c (refSplitAux inq r)

/-- Reference split of a whole line (flag starts outside quotes). -/
def refParts (l : List Char) : List (List Char) :=
  refSplitAux false l

/-- The repaired line as claim C1 words it: reference split, then trim,
wrap and re-join every field. -/
def refRepairLine (l : List Char) : List Char :=
  joinSep [','] ((refParts l).map repairPart)

/-- The reference split amended to match the code: a trailing empty field
is omitted. -/
def refPartsDrop (l : List Char) : List (List Char) :=
  if (refParts l).getLast? = some [] then (refParts l).dropLast else refParts l

/-- The amended reference repair of a data line. -/
def refRepairAmended (l : List Char) : List Char :=
  joinSep [','] ((refPartsDrop l).map repairPart)

/-- Has the line, at the point just before its final character, an
even number of quotes so far, and is that final character a comma?  This is
"the line ends with a field separator", i.e. its last field is empty. -/
def EndsCommaOutside (l : List Char) : Prop :=
  ∃ pre, l = pre ++ [','] ∧ (scanFrom ([], [], false) pre).2.2 = false

/-! ### A standard quoted-CSV parse (reference model)

Modelled from the spec: "parse ... as standard quoted-CSV (comma-delimited,
`"` as quote character, `"` doubled for literal-quote escaping)".  This
stands for the `pandas.read_csv` tokenizer, which is external library code;
it is used as the reference the claims compare the loader against. -/

/-- Tokenize one line as standard quoted CSV.  `inq` is the inside-quotes
state, `cur` the field under construction (quote characters are consumed,
a doubled quote inside a quoted span yields a literal quote). -/
def csvAux : Bool → List Char → List Char → List (List Char)
  | _, cur, [] => [cur]
  | true, cur, '"' :: '"' :: r => csvAux true (cur ++ ['"']) r
  | true, cur, '"' :: r => csvAux false cur r
  | true, cur, c :: r => csvAux true (cur ++ [c]) r
  | false, cur, c :: r =>
    if c = ',' then cur :: csvAux false [] r
    else if c = '"' then csvAux true cur r
    else csvAux false (cur ++ [c]) r

/-- Standard quoted-CSV field list of one line. -/
def parseLineCSV (l : List Char) : List (List Char) :=
  csvAux false [] l

/-- The table (list of token rows) of a parsed document. -/
def parsedTable (doc : List Char) : List (List (List Char)) :=
  (splitOnNl doc).map parseLineCSV

/-- The table the loader's parse step produces: the corrected document,
parsed as standard quoted CSV. -/
def loaderParsedTable (content : List Char) : List (List (List Char)) :=
  parsedTable (fixedContent content)

/-! ### Well-formed CSV input, generatively

A well-formed CSV line is the comma-join of rendered fields, each field
either unquoted (no quote, no comma — no embedded unescaped delimiter) or
quoted (arbitrary content, quotes doubled). -/

/-- One field of a well-formed CSV line. -/
inductive CsvField : Type
  | unquoted (s : List Char)
  | quoted (c : List Char)
deriving DecidableEq

/-- Double every quote character (conventional CSV quote escaping). -/
def escapeQ : List Char → List Char
  | [] => []
  | c :: t => (if c = '"' then ['"', '"'] else [c]) ++ escapeQ t

/-- Raw text of a field as it appears on the line. -/
def renderField : CsvField → List Char
  | .unquoted s => s
  | .quoted c => '"' :: (escapeQ c ++ ['"'])

/-- The value a field denotes. -/
def fieldContent : CsvField → List Char
  | .unquoted s => s
  | .quoted c => c

/-- An unquoted field may not contain a quote or an (unescaped) comma. -/
def ValidField : CsvField → Prop
  | .unquoted s => '"' ∉ s ∧ ',' ∉ s
  | .quoted _ => True

/-- A field whose raw text carries no surrounding whitespace. -/
def StripClean : CsvField → Prop
  | .unquoted s => pyStrip s = s
  | .quoted _ => True

/-- Raw text of a well-formed line with the given fields. -/
def renderLine (fs : List CsvField) : List Char :=
  joinSep [','] (fs.map renderField)

/-- A line is well-formed CSV when it is the rendering of a non-empty
valid field list. -/
def WellFormedLine (l : List Char) : Prop :=
  ∃ fs, fs ≠ [] ∧ (∀ f ∈ fs, ValidField f) ∧ renderLine fs = l

/-- A document is well-formed CSV when each of its lines is. -/
def WellFormedContent (c : List Char) : Prop :=
  ∀ l ∈ splitOnNl c, WellFormedLine l

/-- A data line in the shape the amended claim C2 needs: non-empty valid
field list, raw fields carry no surrounding whitespace, and the last field's
raw text is non-empty (the line does not end in a field separator). -/
def CleanWFLine (l : List Char) : Prop :=
  ∃ gs g, (∀ f ∈ gs ++ [g], ValidField f ∧ StripClean f) ∧
    renderField g ≠ [] ∧ renderLine (gs ++ [g]) = l

/-- What the repair does to a well-formed field: a non-empty unquoted field
containing a colon gets promoted to a quoted field, everything else is kept. -/
def promote : CsvField → CsvField
  | .unquoted s => if s ≠ [] ∧ ':' ∈ s then .quoted s else .unquoted s
  | .quoted c => .quoted c

/-! ### The parsed frame and the cleaning pipeline (app.py lines 152-160)

Cells of a freshly parsed frame are strings or missing (`pandas.read_csv`
turns an empty field into the missing marker `NaN`).  The two coercions and
the categorical fill are embedded with the date and number parsers of the
external library left as parameters `dp`/`np` (`D`/`N` are the calendar-date
and numeric value types). -/

/-- A cell value: missing (`NaN`/`NaT`), a string, a calendar date, or a
number. -/
inductive Val (D N : Type) : Type
  | na
  | str (s : String)
  | date (d : D)
  | num (x : N)
deriving DecidableEq

/-- A parsed frame: column names and rows of cells. -/
structure DataFrame (D N : Type) : Type where
  header : List String
  rows : List (List (Val D N))
deriving DecidableEq

/-- First index of a column name in the header (`df['c']` looks a column
up by name; parsed headers have distinct names). -/
def idxOf? (c : String) : List String → Option Nat
  | [] => none
  | h :: t => if h = c then some 0 else (idxOf? c t).map (· + 1)

/-- Replace the cell at position `j` of a row. -/
def updateVals {D N : Type} (j : Nat) (f : Val D N → Val D N) (r : List (Val D N)) :
    List (Val D N) :=
  match r, j with
  | [], _ => []
  | v :: t, 0 => f v :: t
  | v :: t, n + 1 => v :: updateVals n f t

/-- Replace the cell at position `j` of a row with a fallible
transformation; its failure is an uncaught exception. -/
def updateValsM {D N : Type} (j : Nat) (f : Val D N → Option (Val D N))
    (r : List (Val D N)) : Option (List (Val D N)) :=
  match r, j with
  | [], _ => some []
  | v :: t, 0 => (f v).map (· :: t)
  | v :: t, n + 1 => (updateValsM n f t).map (v :: ·)

/-- Apply a fallible function to every element; any failure fails the
whole list. -/
def mapOpt {α β : Type} (g : α → Option β) : List α → Option (List β)
  | [] => some []
  | a :: t =>
    match g a, mapOpt g t with
    | some b, some r => some (b :: r)
    | _, _ => none

/-- Modelled from the spec: `pd.to_datetime` on one cell — a missing value
stays missing (`NaT`), a string must parse or the call raises, a value that
is already a date is returned unchanged.  Date or numeric cells cannot occur
in a freshly parsed frame; the `num` branch is unreachable there and is left
as the identity. -/
def toDatetimeVal {D N : Type} (dp : String → Option D) : Val D N → Option (Val D N)
  | .na => some .na
  | .str s => (dp s).map .date
  | .date d => some (.date d)
  | .num x => some (.num x)

/-- Modelled from the spec: `pd.to_numeric(..., errors='coerce')` on one
cell — an unparsable string and a missing value become the missing marker,
a number stays itself.  A date cell cannot occur in that column and is left
unchanged. -/
def toNumericVal {D N : Type} (np : String → Option N) : Val D N → Val D N
  | .na => .na
  | .str s => match np s with | some x => .num x | none => .na
  | .num x => .num x
  | .date d => .date d

/-- `df['date'] = pd.to_datetime(df['date'])` (app.py line 152): a missing
`date` column raises `KeyError`, an unparsable present value raises — both
uncaught, so the whole load aborts. -/
def applyDateCol {D N : Type} (dp : String → Option D) (df : DataFrame D N) :
    Option (DataFrame D N) :=
  match idxOf? "date" df.header with
  | none => none
  | some j =>
    (mapOpt (updateValsM j (toDatetimeVal dp)) df.rows).map
      (fun rs => ⟨df.header, rs⟩)

/-- `df['time_to_fix_hours'] = pd.to_numeric(..., errors='coerce')`
(app.py line 153): a missing column raises `KeyError`; values never raise. -/
def applyNumCol {D N : Type} (np : String → Option N) (df : DataFrame D N) :
    Option (DataFrame D N) :=
  match idxOf? "time_to_fix_hours" df.header with
  | none => none
  | some j => some ⟨df.header, df.rows.map (updateVals j (toNumericVal np))⟩

/-- Modelled from the spec: `fillna('N/A')` on one cell replaces only the
missing marker. -/
def fillVal {D N : Type} : Val D N → Val D N
  | .na => .str "N/A"
  | v => v

/-- `if col in df.columns: df[col] = df[col].fillna('N/A')`
(app.py lines 158-160). -/
def fillnaCol {D N : Type} (df : DataFrame D N) (c : String) : DataFrame D N :=
  match idxOf? c df.header with
  | none => df
  | some j => ⟨df.header, df.rows.map (updateVals j fillVal)⟩

/-- `str_cols_to_fill` (app.py line 157). -/
def str_cols_to_fill : List String := ["risk_level", "status", "attack_type"]

/-- The fill loop of app.py lines 157-160. -/
def fillnaAll {D N : Type} (df : DataFrame D N) : DataFrame D N :=
  str_cols_to_fill.foldl fillnaCol df

/-- The whole cleaning step (app.py lines 152-160); `none` means an
uncaught exception, i.e. the load aborts with no table. -/
def cleanPipeline {D N : Type} (dp : String → Option D) (np : String → Option N)
    (df : DataFrame D N) : Option (DataFrame D N) :=
  (applyDateCol dp df).bind (fun d1 => (applyNumCol np d1).map fillnaAll)

/-- Is this present date value parsable?  (Missing counts as acceptable:
`pd.to_datetime` maps it to `NaT` without raising.) -/
def cellDateOkB {D N : Type} (dp : String → Option D) : Val D N → Bool
  | .str s => (dp s).isSome
  | _ => true

/-- Is this date value present and parsable? -/
def cellDatePresentB {D N : Type} (dp : String → Option D) : Val D N → Bool
  | .str s => (dp s).isSome
  | _ => false

/-- Is the cell a calendar date? -/
def isDateCell {D N : Type} : Val D N → Bool
  | .date _ => true
  | _ => false

/-- Is the cell a number or the missing marker? -/
def isNumOrNa {D N : Type} : Val D N → Bool
  | .num _ => true
  | .na => true
  | _ => false

/-- Is the cell a string or the missing marker (the only shapes a freshly
parsed frame contains)? -/
def isStrOrNa {D N : Type} : Val D N → Bool
  | .str _ => true
  | .na => true
  | _ => false

/-! ### The load routine with its fallback policy (app.py lines 87-150) -/

/-- Outcome of `load_data`: a fatal abort (`st.stop()` or an uncaught
exception — no table), or a table together with the warnings surfaced. -/
inductive LoadOutcome (T : Type) : Type
  | fatal (msg : String)
  | ok (warnings : List String) (t : T)
deriving DecidableEq

/-- The tail of `load_data` after a parse succeeded: the cleaning step;
its failure is an uncaught exception, hence fatal. -/
def finishClean {D N : Type} (dp : String → Option D) (np : String → Option N)
    (w : List String) (df : DataFrame D N) : LoadOutcome (DataFrame D N) :=
  match cleanPipeline dp np df with
  | some out => .ok w out
  | none => .fatal "data cleaning failed"

/-- The warning of app.py line 147. -/
def skippedWarning : String := "Loaded with some lines skipped due to parsing errors."

/-- `load_data` (app.py lines 83-162).  `fileContent` is the file system's
content at the path (`none`: `FileNotFoundError` → fatal).  `strict` is the
external `pd.read_csv(StringIO(fixed_content))` (app.py line 133), applied
to the corrected document; `lenient` is
`pd.read_csv(csv_path, on_bad_lines='skip', engine='python')`
(app.py lines 142-146), applied to the original document; `none` is a raised
parse error. -/
def load_data {D N : Type} (dp : String → Option D) (np : String → Option N)
    (strict lenient : List Char → Option (DataFrame D N))
    (fileContent : Option (List Char)) : LoadOutcome (DataFrame D N) :=
  match fileContent with
  | none => .fatal "file not found"
  | some content =>
    match strict (fixedContent content) with
    | some df => finishClean dp np [] df
    | none =>
      match lenient content with
      | some df => finishClean dp np [skippedWarning] df
      | none => .fatal "critical error"

/-- A raw CSV token as a parsed cell: an empty field is the missing marker. -/
def cellOfTok {D N : Type} (t : List Char) : Val D N :=
  if t = [] then .na else .str (String.mk t)

/-- Modelled from the spec: the lenient fallback parse
(`on_bad_lines='skip'`, `engine='python'`) — tokenize every non-blank line
as standard quoted CSV, take line 0 as the header, and silently drop every
data row whose token count differs from the header's column count. -/
def readCsvLenient {D N : Type} (c : List Char) : Option (DataFrame D N) :=
  match (splitOnNl c).filter (fun l => !l.isEmpty) with
  | [] => none
  | h :: t =>
    let hdr := (parseLineCSV h).map (fun f => String.mk f)
    some ⟨hdr, ((t.map parseLineCSV).filter (fun r => r.length == hdr.length)).map
      (fun r => r.map cellOfTok)⟩

/-! ### The memoization cache (app.py line 82)

Modelled from the spec: `@st.cache_data` memoizes `load_data` keyed by its
argument tuple for the life of the process. -/

/-- Association-list lookup. -/
def lookupC {K V : Type} [DecidableEq K] (k : K) : List (K × V) → Option V
  | [] => none
  | (k', v) :: t => if k' = k then some v else lookupC k t

/-- Modelled from the spec: one call through the memoization cache.
Returns the value, the new cache state, and whether the underlying function
was actually invoked (i.e. whether the file was read and parsed). -/
def cachedCall {K V : Type} [DecidableEq K] (f : K → V) (st : List (K × V)) (k : K) :
    V × List (K × V) × Bool :=
  match lookupC k st with
  | some v => (v, st, false)
  | none => (f k, (k, f k) :: st, true)

/-- `load_data` as called through `@st.cache_data`, keyed by the path
argument; `fsys` maps a path to the file content at that path. -/
def load_data_cached {D N : Type} (dp : String → Option D) (np : String → Option N)
    (strict lenient : List Char → Option (DataFrame D N))
    (fsys : String → Option (List Char))
    (st : List (String × LoadOutcome (DataFrame D N))) (path : String) :
    LoadOutcome (DataFrame D N) × List (String × LoadOutcome (DataFrame D N)) × Bool :=
  cachedCall (fun p => load_data dp np strict lenient (fsys p)) st path

/-! ### Concrete instances used by witnesses and counterexamples -/

/-- A concrete date parser: recognizes the one date of the test inputs. -/
def dp0 : String → Option Nat := fun s => if s = "2024-01-01" then some 20240101 else none

/-- A concrete number parser: recognizes the one number of the test inputs. -/
def np0 : String → Option Nat := fun s => if s = "3" then some 3 else none

/-- A parsed frame with a missing `date` value. -/
def dfNaDate : DataFrame Nat Nat :=
  ⟨["date", "time_to_fix_hours"], [[.na, .str "3"]]⟩

/-- The cleaned form of `dfNaDate`. -/
def dfNaDateOut : DataFrame Nat Nat :=
  ⟨["date", "time_to_fix_hours"], [[.na, .num 3]]⟩

/-- A well-typed parsed frame with all columns of interest. -/
def dfFull : DataFrame Nat Nat :=
  ⟨["date", "risk_level", "time_to_fix_hours"],
   [[.str "2024-01-01", .na, .str "unknown"]]⟩

/-- A parsed frame without a `date` column. -/
def dfNoDate : DataFrame Nat Nat :=
  ⟨["mission", "time_to_fix_hours"], [[.str "FLEX", .str "3"]]⟩

/-- The cleaned form of `dfFull`. -/
def dfFullOut : DataFrame Nat Nat :=
  ⟨["date", "risk_level", "time_to_fix_hours"],
   [[.date 20240101, .str "N/A", .na]]⟩

/-- A parsed frame with an unparsable present `date` value. -/
def dfBadDate : DataFrame Nat Nat :=
  ⟨["date", "time_to_fix_hours"], [[.str "nope", .str "3"]]⟩

/-- A strict parser that always raises (for exercising the fallback). -/
def strictFail : List Char → Option (DataFrame Nat Nat) := fun _ => none

/-- A lenient parser that always returns `dfFull`. -/
def lenientConst : List Char → Option (DataFrame Nat Nat) := fun _ => some dfFull

/-- A one-file file system at path `"r.csv"`. -/
def fsys0 : String → Option (List Char) :=
  fun p => if p = "r.csv" then some "date,time_to_fix_hours\n2024-01-01,3".toList else none

instance (f : CsvField) : Decidable (ValidField f) :=
  match f with
  | .unquoted s => inferInstanceAs (Decidable ('"' ∉ s ∧ ',' ∉ s))
  | .quoted _ => inferInstanceAs (Decidable True)

instance (f : CsvField) : Decidable (StripClean f) :=
  match f with
  | .unquoted s => inferInstanceAs (Decidable (pyStrip s = s))
  | .quoted _ => inferInstanceAs (Decidable True)

/-- The header fields of the C2 counterexample document. -/
def cexHeaderFields : List CsvField :=
  [.unquoted "date".toList, .unquoted "time_to_fix_hours".toList, .unquoted "notes".toList]

/-- The data fields of the C2 counterexample document: the last field
carries a leading space, which standard CSV keeps but the repair trims. -/
def cexDataFields : List CsvField :=
  [.unquoted "2024-01-01".toList, .unquoted "3".toList, .unquoted " x".toList]

/-! ## Theorems -/

/-! ### The character loop versus the reference split -/

theorem consHeadL_consHead (cur : List Char) (c : Char) (fs : List (List Char)) :
    consHeadL cur (consHead c fs) = consHeadL (cur ++ [c]) fs := by
  cases fs <;> simp [consHead, consHeadL]

theorem refSplitAux_ne_nil (inq : Bool) (l : List Char) : refSplitAux inq l ≠ [] := by
  cases l with
  | nil => simp [refSplitAux]
  | cons c r =>
    simp only [refSplitAux]
    split
    · cases refSplitAux (!inq) r <;> simp [consHead]
    · split
      · simp
      · cases refSplitAux inq r <;> simp [consHead]

theorem consHeadL_nil (fs : List (List Char)) (h : fs ≠ []) : consHeadL [] fs = fs := by
  cases fs with
  | nil => exact absurd rfl h
  | cons f t => simp [consHeadL]

theorem scanFrom_cons (st : List (List Char) × List Char × Bool) (c : Char) (r : List Char) :
    scanFrom st (c :: r) = scanFrom (scanStep st c) r := rfl

theorem scanFrom_append (st : List (List Char) × List Char × Bool) (a b : List Char) :
    scanFrom st (a ++ b) = scanFrom (scanFrom st a) b :=
  List.foldl_append _ _ _ _

theorem collect_scanFrom (l : List Char) :
    ∀ ps cur inq, (scanFrom (ps, cur, inq) l).1 ++ [(scanFrom (ps, cur, inq) l).2.1]
      = ps ++ consHeadL cur (refSplitAux inq l) := by
  induction l with
  | nil => intro ps cur inq; simp [scanFrom, refSplitAux, consHeadL]
  | cons c r ih =>
    intro ps cur inq
    rw [scanFrom_cons]
    by_cases hq : c = '"'
    · subst hq
      have hstep : scanStep (ps, cur, inq) '"' = (ps, cur ++ ['"'], !inq) := by
        simp [scanStep]
      rw [hstep, ih]
      have hr : refSplitAux inq ('"' :: r) = consHead '"' (refSplitAux (!inq) r) := by
        simp [refSplitAux]
      rw [hr, consHeadL_consHead]
    · by_cases hc : c = ',' ∧ inq = false
      · have hstep : scanStep (ps, cur, inq) c = (ps ++ [cur], [], inq) := by
          simp [scanStep, hq, hc]
        rw [hstep, ih]
        have hr : refSplitAux inq (c :: r) = [] :: refSplitAux inq r := by
          rw [refSplitAux, if_neg hq, if_pos hc]
        rw [hr, consHeadL_nil _ (refSplitAux_ne_nil _ _)]
        simp [consHeadL]
      · have hstep : scanStep (ps, cur, inq) c = (ps, cur ++ [c], inq) := by
          simp [scanStep, hq, hc]
        rw [hstep, ih]
        have hr : refSplitAux inq (c :: r) = consHead c (refSplitAux inq r) := by
          rw [refSplitAux, if_neg hq, if_neg hc]
        rw [hr, consHeadL_consHead]

theorem refParts_eq_collect (l : List Char) :
    refParts l = (scanFrom ([], [], false) l).1 ++ [(scanFrom ([], [], false) l).2.1] := by
  rw [collect_scanFrom l [] [] false, consHeadL_nil _ (refSplitAux_ne_nil _ _)]
  rfl

theorem codeParts_eq_refPartsDrop (l : List Char) : codeParts l = refPartsDrop l := by
  have h := refParts_eq_collect l
  by_cases hcur : (scanFrom ([], [], false) l).2.1 = []
  · have hlast : (refParts l).getLast? = some [] := by
      rw [h, hcur]; exact List.getLast?_concat _
    rw [refPartsDrop, if_pos hlast, h, hcur, List.dropLast_concat]
    simp [codeParts, hcur]
  · have hlast : ¬ (refParts l).getLast? = some [] := by
      rw [h, List.getLast?_concat]
      intro hcontra
      exact hcur (Option.some.inj hcontra)
    rw [refPartsDrop, if_neg hlast, h]
    simp [codeParts, hcur]

theorem fixLine_eq_refRepairAmended (l : List Char) : fixLine l = refRepairAmended l := by
  rw [fixLine, refRepairAmended, codeParts_eq_refPartsDrop]

theorem getD_map {α β : Type} (f : α → β) (l : List α) (j : Nat)
    (d : α) : (l.map f).getD j (f d) = f (l.getD j d) := by
  induction l generalizing j with
  | nil => simp
  | cons a t ih => cases j <;> simp [ih]

theorem fixLine_nil : fixLine [] = [] := rfl

/-- C1 (counterexample): the data line `2024-01-01,` ends in a field
separator; the loader's repaired line drops the trailing empty field, while
the claimed reference computation (quote-aware split, trim, wrap, re-join)
keeps it, so the two differ. -/
theorem C1_counterexample :
    (fixedLinesList "date,notes\n2024-01-01,".toList).getD 1 []
      ≠ refRepairLine ((linesOf "date,notes\n2024-01-01,".toList).getD 1 []) := by
  decide

/-- C1 (amended): for every data line, the repaired line produced by the
loader equals the reference computation — quote-aware split with the
toggling in-quotes flag, trim, conditional wrap, re-join — except that the
split's trailing field is omitted when it is empty; the header line is kept
unchanged. -/
theorem C1_amended (content : List Char) (i : Nat) (hi : i < (linesOf content).length) :
    (fixedLinesList content).getD i [] =
      if i = 0 then (linesOf content).getD i []
      else refRepairAmended ((linesOf content).getD i []) := by
  rcases hlo : linesOf content with _ | ⟨h, t⟩
  · rw [hlo] at hi; simp at hi
  · rw [fixedLinesList, hlo]
    cases i with
    | zero => simp
    | succ j =>
      simp only [Nat.succ_ne_zero, if_neg]
      show (t.map fixLine).getD j [] = refRepairAmended (t.getD j [])
      calc (t.map fixLine).getD j []
          = (t.map fixLine).getD j (fixLine []) := by rw [fixLine_nil]
        _ = fixLine (t.getD j []) := getD_map fixLine t j []
        _ = refRepairAmended (t.getD j []) := fixLine_eq_refRepairAmended _

/-- C1 (witness): the amended statement evaluated on a concrete document. -/
theorem C1_witness :
    1 < (linesOf "date,notes\n2024-01-01,x:1, y".toList).length ∧
    (fixedLinesList "date,notes\n2024-01-01,x:1, y".toList).getD 1 [] =
      refRepairAmended ((linesOf "date,notes\n2024-01-01,x:1, y".toList).getD 1 []) := by
  refine ⟨by decide, ?_⟩
  have h := C1_amended "date,notes\n2024-01-01,x:1, y".toList 1 (by decide)
  simpa using h

/-- C9: when a data line ends with a comma outside quotes (its last field
is empty), the loader's split omits that trailing empty field, yielding one
field fewer than the reference quote-aware split. -/
theorem C9_drop_trailing (l : List Char) (h : EndsCommaOutside l) :
    codeParts l = (refParts l).dropLast ∧
    (codeParts l).length + 1 = (refParts l).length := by
  obtain ⟨pre, hpre, hout⟩ := h
  subst hpre
  have hsc : scanFrom ([], [], false) (pre ++ [','])
      = scanStep (scanFrom ([], [], false) pre) ',' := by
    rw [scanFrom_append]; rfl
  have hstep : scanStep (scanFrom ([], [], false) pre) ','
      = ((scanFrom ([], [], false) pre).1 ++ [(scanFrom ([], [], false) pre).2.1], [],
         (scanFrom ([], [], false) pre).2.2) := by
    simp [scanStep, hout]
  have hcode : codeParts (pre ++ [','])
      = (scanFrom ([], [], false) pre).1 ++ [(scanFrom ([], [], false) pre).2.1] := by
    simp [codeParts, hsc, hstep]
  have href : refParts (pre ++ [','])
      = ((scanFrom ([], [], false) pre).1 ++ [(scanFrom ([], [], false) pre).2.1]) ++ [[]] := by
    rw [refParts_eq_collect, hsc, hstep]
  constructor
  · rw [hcode, href, List.dropLast_concat]
  · rw [hcode, href]
    simp

/-- C9 (witness): the concrete line `2024-01-01,`. -/
theorem C9_witness :
    EndsCommaOutside "2024-01-01,".toList ∧
    codeParts "2024-01-01,".toList = (refParts "2024-01-01,".toList).dropLast ∧
    (codeParts "2024-01-01,".toList).length + 1 = (refParts "2024-01-01,".toList).length := by
  have h : EndsCommaOutside "2024-01-01,".toList :=
    ⟨"2024-01-01".toList, by decide, by decide⟩
  exact ⟨h, C9_drop_trailing _ h⟩

/-! ### The repair on well-formed lines -/

theorem scanFrom_no_special (s : List Char) (hq : '"' ∉ s) (hc : ',' ∉ s) :
    ∀ ps cur, scanFrom (ps, cur, false) s = (ps, cur ++ s, false) := by
  induction s with
  | nil => intro ps cur; simp [scanFrom]
  | cons c t ih =>
    intro ps cur
    have hcq : c ≠ '"' := fun h => hq (h ▸ List.mem_cons_self c t)
    have hcc : c ≠ ',' := fun h => hc (h ▸ List.mem_cons_self c t)
    rw [scanFrom_cons]
    have hstep : scanStep (ps, cur, false) c = (ps, cur ++ [c], false) := by
      simp [scanStep, hcq, hcc]
    rw [hstep, ih (fun h => hq (List.mem_cons_of_mem _ h))
      (fun h => hc (List.mem_cons_of_mem _ h))]
    simp

theorem scanFrom_escape (c : List Char) :
    ∀ ps cur, scanFrom (ps, cur, true) (escapeQ c) = (ps, cur ++ escapeQ c, true) := by
  induction c with
  | nil => intro ps cur; simp [scanFrom, escapeQ]
  | cons ch t ih =>
    intro ps cur
    by_cases hch : ch = '"'
    · subst hch
      have he : escapeQ ('"' :: t) = '"' :: '"' :: escapeQ t := by simp [escapeQ]
      rw [he, scanFrom_cons, scanFrom_cons]
      have h1 : scanStep (ps, cur, true) '"' = (ps, cur ++ ['"'], false) := by
        simp [scanStep]
      have h2 : scanStep (ps, cur ++ ['"'], false) '"' = (ps, (cur ++ ['"']) ++ ['"'], true) := by
        simp [scanStep]
      rw [h1, h2, ih]
      simp
    · have he : escapeQ (ch :: t) = ch :: escapeQ t := by simp [escapeQ, hch]
      rw [he, scanFrom_cons]
      have h1 : scanStep (ps, cur, true) ch = (ps, cur ++ [ch], true) := by
        simp [scanStep, hch]
      rw [h1, ih]
      simp

theorem scanFrom_field (f : CsvField) (hf : ValidField f) :
    ∀ ps cur, scanFrom (ps, cur, false) (renderField f) = (ps, cur ++ renderField f, false) := by
  cases f with
  | unquoted s => exact fun ps cur => scanFrom_no_special s hf.1 hf.2 ps cur
  | quoted c =>
    intro ps cur
    show scanFrom (ps, cur, false) ('"' :: (escapeQ c ++ ['"'])) = _
    rw [scanFrom_cons]
    have h1 : scanStep (ps, cur, false) '"' = (ps, cur ++ ['"'], true) := by
      simp [scanStep]
    rw [h1, scanFrom_append, scanFrom_escape]
    have h2 : scanFrom (ps, (cur ++ ['"']) ++ escapeQ c, true) ['"']
        = (ps, ((cur ++ ['"']) ++ escapeQ c) ++ ['"'], false) := by
      rw [show scanFrom (ps, (cur ++ ['"']) ++ escapeQ c, true) ['"']
          = scanStep (ps, (cur ++ ['"']) ++ escapeQ c, true) '"' from rfl]
      simp [scanStep]
    rw [h2]
    simp [renderField]

theorem joinSep_cons_ne (sep x : List Char) (xs : List (List Char)) (h : xs ≠ []) :
    joinSep sep (x :: xs) = x ++ sep ++ joinSep sep xs := by
  cases xs with
  | nil => exact absurd rfl h
  | cons y t => rfl

theorem scanFrom_renderLine (gs : List CsvField) (g : CsvField) :
    ∀ ps, (∀ f ∈ gs ++ [g], ValidField f) →
      scanFrom (ps, [], false) (renderLine (gs ++ [g]))
        = (ps ++ gs.map renderField, renderField g, false) := by
  induction gs with
  | nil =>
    intro ps hv
    have hg : ValidField g := hv g (List.mem_append_right _ (List.mem_singleton_self g))
    show scanFrom (ps, [], false) (joinSep [','] [renderField g]) = _
    rw [show joinSep [','] [renderField g] = renderField g from rfl, scanFrom_field g hg]
    simp
  | cons f gs ih =>
    intro ps hv
    have hf : ValidField f := hv f (List.mem_cons_self f _)
    have hne : (gs ++ [g]).map renderField ≠ [] := by simp
    have hline : renderLine ((f :: gs) ++ [g])
        = renderField f ++ [','] ++ renderLine (gs ++ [g]) := by
      show joinSep [','] (renderField f :: (gs ++ [g]).map renderField) = _
      rw [joinSep_cons_ne _ _ _ hne]
      rfl
    rw [hline, scanFrom_append, scanFrom_append, scanFrom_field f hf]
    have hcomma : scanFrom (ps, [] ++ renderField f, false) [',']
        = (ps ++ [renderField f], [], false) := by
      rw [show scanFrom (ps, [] ++ renderField f, false) [',']
          = scanStep (ps, [] ++ renderField f, false) ',' from rfl]
      simp [scanStep]
    rw [hcomma, ih (ps ++ [renderField f]) (fun x hx => hv x (List.mem_cons_of_mem _ hx))]
    simp

theorem codeParts_renderLine (gs : List CsvField) (g : CsvField)
    (hv : ∀ f ∈ gs ++ [g], ValidField f) (hg : renderField g ≠ []) :
    codeParts (renderLine (gs ++ [g])) = (gs ++ [g]).map renderField := by
  rw [codeParts, scanFrom_renderLine gs g [] hv]
  simp [hg]

theorem escapeQ_no_quote (s : List Char) (h : '"' ∉ s) : escapeQ s = s := by
  induction s with
  | nil => rfl
  | cons c t ih =>
    have hc : c ≠ '"' := fun hc => h (hc ▸ List.mem_cons_self c t)
    simp [escapeQ, hc, ih (fun hm => h (List.mem_cons_of_mem _ hm))]

theorem pyStrip_quote_ends (m : List Char) :
    pyStrip ('"' :: (m ++ ['"'])) = '"' :: (m ++ ['"']) := by
  have h1 : ('"' :: (m ++ ['"'])).dropWhile isPySpace = '"' :: (m ++ ['"']) := by
    rw [List.dropWhile_cons]
    simp [isPySpace]
  have h2 : ('"' :: (m ++ ['"'])).reverse = '"' :: (m.reverse ++ ['"']) := by
    simp
  rw [pyStrip, h1, h2]
  rw [List.dropWhile_cons]
  simp [isPySpace]

theorem repairPart_renderField (f : CsvField) (hv : ValidField f) (hs : StripClean f) :
    repairPart (renderField f) = renderField (promote f) := by
  cases f with
  | unquoted s =>
    show repairPart s = renderField (promote (.unquoted s))
    have hs' : pyStrip s = s := hs
    rw [repairPart, hs']
    by_cases hnil : s = []
    · subst hnil
      simp [promote, renderField]
    · have hhead : s.head? ≠ some '"' := by
        cases s with
        | nil => simp
        | cons c t =>
          simp only [List.head?_cons, ne_eq, Option.some.injEq]
          intro hc
          exact hv.1 (hc ▸ List.mem_cons_self c t)
      by_cases hcolon : ':' ∈ s
      · rw [if_pos ⟨hnil, hhead, Or.inr hcolon⟩]
        have : promote (.unquoted s) = .quoted s := by
          simp [promote, hnil, hcolon]
        rw [this]
        show _ = '"' :: (escapeQ s ++ ['"'])
        rw [escapeQ_no_quote s hv.1]
        simp
      · have hcm : ',' ∉ s := hv.2
        rw [if_neg]
        · have : promote (.unquoted s) = .unquoted s := by
            simp [promote, hcolon]
          rw [this]
          rfl
        · rintro ⟨-, -, h | h⟩
          · exact hcm h
          · exact hcolon h
  | quoted c =>
    show repairPart ('"' :: (escapeQ c ++ ['"'])) = renderField (promote (.quoted c))
    rw [repairPart]
    simp only [pyStrip_quote_ends]
    rw [if_neg]
    · rfl
    · rintro ⟨-, h, -⟩
      exact h rfl

theorem fixLine_renderLine (gs : List CsvField) (g : CsvField)
    (hv : ∀ f ∈ gs ++ [g], ValidField f ∧ StripClean f) (hg : renderField g ≠ []) :
    fixLine (renderLine (gs ++ [g])) = renderLine ((gs ++ [g]).map promote) := by
  rw [fixLine, codeParts_renderLine gs g (fun f hf => (hv f hf).1) hg]
  rw [renderLine, List.map_map, List.map_map]
  congr 1
  exact List.map_congr_left (fun f hf =>
    repairPart_renderField f (hv f hf).1 (hv f hf).2)

/-! ### The CSV parse on well-formed lines -/

theorem csvAux_no_special (s : List Char) (hq : '"' ∉ s) (hc : ',' ∉ s) :
    ∀ cur r, csvAux false cur (s ++ r) = csvAux false (cur ++ s) r := by
  induction s with
  | nil => intro cur r; simp
  | cons c t ih =>
    intro cur r
    have hcq : c ≠ '"' := fun h => hq (h ▸ List.mem_cons_self c t)
    have hcc : c ≠ ',' := fun h => hc (h ▸ List.mem_cons_self c t)
    show csvAux false cur (c :: (t ++ r)) = _
    rw [show csvAux false cur (c :: (t ++ r))
        = if c = ',' then cur :: csvAux false [] (t ++ r)
          else if c = '"' then csvAux true cur (t ++ r)
          else csvAux false (cur ++ [c]) (t ++ r) from rfl]
    rw [if_neg hcc, if_neg hcq,
      ih (fun h => hq (List.mem_cons_of_mem _ h)) (fun h => hc (List.mem_cons_of_mem _ h))]
    simp

theorem csvAux_escape (c : List Char) :
    ∀ cur r, r.head? ≠ some '"' →
      csvAux true cur (escapeQ c ++ '"' :: r) = csvAux false (cur ++ c) r := by
  induction c with
  | nil =>
    intro cur r hr
    show csvAux true cur ('"' :: r) = csvAux false (cur ++ []) r
    cases r with
    | nil => simp [csvAux]
    | cons c' r' =>
      have hc' : c' ≠ '"' := by
        simp only [List.head?_cons, ne_eq, Option.some.injEq] at hr
        exact hr
      simp only [List.append_nil]
      rw [show csvAux true cur ('"' :: c' :: r') = csvAux false cur (c' :: r') from by
        simp [csvAux, hc']]
  | cons ch t ih =>
    intro cur r hr
    by_cases hch : ch = '"'
    · subst hch
      have he : escapeQ ('"' :: t) ++ '"' :: r = '"' :: '"' :: (escapeQ t ++ '"' :: r) := by
        simp [escapeQ]
      rw [he]
      rw [show csvAux true cur ('"' :: '"' :: (escapeQ t ++ '"' :: r))
          = csvAux true (cur ++ ['"']) (escapeQ t ++ '"' :: r) from rfl]
      rw [ih _ _ hr]
      simp
    · have he : escapeQ (ch :: t) ++ '"' :: r = ch :: (escapeQ t ++ '"' :: r) := by
        simp [escapeQ, hch]
      rw [he]
      rw [show csvAux true cur (ch :: (escapeQ t ++ '"' :: r))
          = csvAux true (cur ++ [ch]) (escapeQ t ++ '"' :: r) from by
        simp [csvAux, hch]]
      rw [ih _ _ hr]
      simp

theorem csvAux_field_sep (f : CsvField) (hf : ValidField f) (t : List Char) :
    csvAux false [] (renderField f ++ ',' :: t) = fieldContent f :: csvAux false [] t := by
  cases f with
  | unquoted s =>
    rw [show renderField (.unquoted s) = s from rfl, csvAux_no_special s hf.1 hf.2]
    rfl
  | quoted c =>
    show csvAux false [] ('"' :: (escapeQ c ++ ['"']) ++ ',' :: t) = _
    rw [show ('"' :: (escapeQ c ++ ['"'])) ++ ',' :: t
        = '"' :: (escapeQ c ++ '"' :: (',' :: t)) from by simp]
    rw [show csvAux false [] ('"' :: (escapeQ c ++ '"' :: (',' :: t)))
        = csvAux true [] (escapeQ c ++ '"' :: (',' :: t)) from rfl]
    rw [csvAux_escape c [] (',' :: t) (by simp)]
    rfl

theorem csvAux_field_end (f : CsvField) (hf : ValidField f) :
    csvAux false [] (renderField f) = [fieldContent f] := by
  cases f with
  | unquoted s =>
    have h := csvAux_no_special s hf.1 hf.2 [] []
    simp only [List.append_nil, List.nil_append] at h
    rw [show renderField (.unquoted s) = s from rfl, h]
    simp [csvAux, fieldContent]
  | quoted c =>
    show csvAux false [] ('"' :: (escapeQ c ++ ['"'])) = _
    rw [show csvAux false [] ('"' :: (escapeQ c ++ ['"']))
        = csvAux true [] (escapeQ c ++ '"' :: []) from rfl]
    rw [csvAux_escape c [] [] (by simp)]
    rfl

theorem parse_renderLine (fs : List CsvField) (hne : fs ≠ [])
    (hv : ∀ f ∈ fs, ValidField f) :
    parseLineCSV (renderLine fs) = fs.map fieldContent := by
  induction fs with
  | nil => exact absurd rfl hne
  | cons f t ih =>
    cases t with
    | nil =>
      show csvAux false [] (joinSep [','] [renderField f]) = _
      rw [show joinSep [','] [renderField f] = renderField f from rfl,
        csvAux_field_end f (hv f (List.mem_cons_self f _))]
      rfl
    | cons f2 t2 =>
      have hline : renderLine (f :: f2 :: t2)
          = renderField f ++ ',' :: renderLine (f2 :: t2) := by
        show joinSep [','] (renderField f :: renderField f2 :: t2.map renderField) = _
        rw [joinSep_cons_ne _ _ _ (by simp)]
        simp [renderLine]
      rw [parseLineCSV, hline, csvAux_field_sep f (hv f (List.mem_cons_self f _))]
      rw [show csvAux false [] (renderLine (f2 :: t2)) = parseLineCSV (renderLine (f2 :: t2))
        from rfl]
      rw [ih (by simp) (fun x hx => hv x (List.mem_cons_of_mem _ hx))]
      rfl

theorem splitOnNl_ne_nil (c : List Char) : splitOnNl c ≠ [] := by
  cases c with
  | nil => simp [splitOnNl]
  | cons x r =>
    simp only [splitOnNl]
    split
    · simp
    · cases splitOnNl r <;> simp [consHead]

theorem mem_splitOnNl_no_nl (c : List Char) : ∀ l ∈ splitOnNl c, '\n' ∉ l := by
  induction c with
  | nil =>
    intro l hl
    simp [splitOnNl] at hl
    simp [hl]
  | cons x r ih =>
    intro l hl
    by_cases hx : x = '\n'
    · rw [splitOnNl, if_pos hx] at hl
      rcases List.mem_cons.1 hl with rfl | hl
      · simp
      · exact ih l hl
    · rw [splitOnNl, if_neg hx] at hl
      rcases hsp : splitOnNl r with _ | ⟨f, t⟩
      · exact absurd hsp (splitOnNl_ne_nil r)
      · rw [hsp, consHead] at hl
        rcases List.mem_cons.1 hl with rfl | hl
        · intro hmem
          rcases List.mem_cons.1 hmem with h | h
          · exact hx h.symm
          · exact ih f (hsp ▸ List.mem_cons_self f t) h
        · exact ih l (hsp ▸ List.mem_cons_of_mem f hl)

theorem consHead_consHeadL (c : Char) (t : List Char) (fs : List (List Char)) :
    consHead c (consHeadL t fs) = consHeadL (c :: t) fs := by
  cases fs <;> simp [consHead, consHeadL]

theorem splitOnNl_append_no_nl (x : List Char) (hx : '\n' ∉ x) (r : List Char) :
    splitOnNl (x ++ r) = consHeadL x (splitOnNl r) := by
  induction x with
  | nil => rw [List.nil_append, consHeadL_nil _ (splitOnNl_ne_nil r)]
  | cons c t ih =>
    have hc : c ≠ '\n' := fun h => hx (h ▸ List.mem_cons_self c t)
    have ht : '\n' ∉ t := fun h => hx (List.mem_cons_of_mem c h)
    show splitOnNl (c :: (t ++ r)) = _
    rw [splitOnNl, if_neg hc, ih ht, consHead_consHeadL]

theorem splitOnNl_joinSep (lns : List (List Char)) (hne : lns ≠ [])
    (hnl : ∀ l ∈ lns, '\n' ∉ l) : splitOnNl (joinSep ['\n'] lns) = lns := by
  induction lns with
  | nil => exact absurd rfl hne
  | cons x xs ih =>
    cases xs with
    | nil =>
      show splitOnNl x = [x]
      have hx : '\n' ∉ x := hnl x (List.mem_cons_self x [])
      have := splitOnNl_append_no_nl x hx []
      rw [List.append_nil] at this
      rw [this]
      simp [splitOnNl, consHeadL]
    | cons y t =>
      rw [joinSep_cons_ne _ _ _ (by simp)]
      have hx : '\n' ∉ x := hnl x (List.mem_cons_self x _)
      rw [List.append_assoc, splitOnNl_append_no_nl x hx]
      rw [show ('\n' :: []) ++ joinSep ['\n'] (y :: t) = '\n' :: joinSep ['\n'] (y :: t)
        from rfl]
      rw [splitOnNl, if_pos rfl]
      rw [ih (by simp) (fun l hl => hnl l (List.mem_cons_of_mem x hl))]
      simp [consHeadL]

theorem mem_joinSep (sep : List Char) (ls : List (List Char)) (x : Char)
    (hx : x ∈ joinSep sep ls) : x ∈ sep ∨ ∃ p ∈ ls, x ∈ p := by
  induction ls with
  | nil => simp [joinSep] at hx
  | cons a t ih =>
    cases t with
    | nil =>
      right
      exact ⟨a, List.mem_cons_self a [], hx⟩
    | cons b t2 =>
      rw [joinSep_cons_ne _ _ _ (by simp)] at hx
      rcases List.mem_append.1 hx with h | h
      · rcases List.mem_append.1 h with h | h
        · exact Or.inr ⟨a, List.mem_cons_self a _, h⟩
        · exact Or.inl h
      · rcases ih h with h | ⟨p, hp, hxp⟩
        · exact Or.inl h
        · exact Or.inr ⟨p, List.mem_cons_of_mem a hp, hxp⟩

theorem mem_joinSep_of_mem (sep : List Char) (ls : List (List Char)) (p : List Char)
    (hp : p ∈ ls) (x : Char) (hx : x ∈ p) : x ∈ joinSep sep ls := by
  induction ls with
  | nil => simp at hp
  | cons a t ih =>
    cases t with
    | nil =>
      rcases List.mem_cons.1 hp with rfl | h
      · exact hx
      · simp at h
    | cons b t2 =>
      rw [joinSep_cons_ne _ _ _ (by simp)]
      rcases List.mem_cons.1 hp with rfl | h
      · exact List.mem_append.2 (Or.inl (List.mem_append.2 (Or.inl hx)))
      · exact List.mem_append.2 (Or.inr (ih h))

theorem mem_renderField_promote (f : CsvField) (hv : ValidField f) (x : Char)
    (hx : x ∈ renderField (promote f)) : x ∈ renderField f ∨ x = '"' := by
  cases f with
  | unquoted s =>
    rw [promote] at hx
    split at hx
    · show x ∈ s ∨ x = '"'
      rw [renderField, escapeQ_no_quote s hv.1] at hx
      rcases List.mem_cons.1 hx with rfl | hx
      · exact Or.inr rfl
      · rcases List.mem_append.1 hx with h | h
        · exact Or.inl h
        · right
          simpa using h
    · exact Or.inl hx
  | quoted c => exact Or.inl hx

theorem validField_promote (f : CsvField) (hv : ValidField f) : ValidField (promote f) := by
  cases f with
  | unquoted s =>
    rw [promote]
    split
    · trivial
    · exact hv
  | quoted c => trivial

theorem fieldContent_promote (f : CsvField) : fieldContent (promote f) = fieldContent f := by
  cases f with
  | unquoted s =>
    rw [promote]
    split <;> rfl
  | quoted c => rfl

theorem fixLine_parse (gs : List CsvField) (g : CsvField)
    (hv : ∀ f ∈ gs ++ [g], ValidField f ∧ StripClean f) (hg : renderField g ≠ []) :
    parseLineCSV (fixLine (renderLine (gs ++ [g]))) = parseLineCSV (renderLine (gs ++ [g])) := by
  rw [fixLine_renderLine gs g hv hg]
  rw [parse_renderLine ((gs ++ [g]).map promote) (by simp)
    (by
      intro f hf
      obtain ⟨f0, hf0, rfl⟩ := List.mem_map.1 hf
      exact validField_promote f0 (hv f0 hf0).1)]
  rw [parse_renderLine (gs ++ [g]) (by simp) (fun f hf => (hv f hf).1)]
  rw [List.map_map]
  exact List.map_congr_left (fun f _ => fieldContent_promote f)

theorem fixLine_no_nl (l : List Char) (hl : CleanWFLine l) (hn : '\n' ∉ l) :
    '\n' ∉ fixLine l := by
  obtain ⟨gs, g, hv, hg, hrender⟩ := hl
  rw [← hrender] at hn ⊢
  rw [fixLine_renderLine gs g hv hg]
  intro hmem
  have hmem' : '\n' ∈ joinSep [','] (((gs ++ [g]).map promote).map renderField) := hmem
  rcases mem_joinSep _ _ _ hmem' with h | ⟨p, hp, hxp⟩
  · simp at h
  · obtain ⟨f, hf, rfl⟩ := List.mem_map.1 hp
    obtain ⟨f0, hf0, rfl⟩ := List.mem_map.1 hf
    rcases mem_renderField_promote f0 (hv f0 hf0).1 _ hxp with h | h
    · exact hn (mem_joinSep_of_mem [','] _ (renderField f0)
        (List.mem_map_of_mem renderField hf0) '\n' h)
    · exact absurd h (by decide)

/-- C2 (counterexample): a well-formed document whose last field carries a
leading space.  Standard CSV keeps the space as part of the field; the
loader's repair trims it, so the loader's parsed table differs from the
standard parse of the original input. -/
theorem C2_counterexample :
    WellFormedContent "date,time_to_fix_hours,notes\n2024-01-01,3, x".toList ∧
    loaderParsedTable "date,time_to_fix_hours,notes\n2024-01-01,3, x".toList ≠
      parsedTable "date,time_to_fix_hours,notes\n2024-01-01,3, x".toList := by
  constructor
  · intro l hl
    rw [show splitOnNl "date,time_to_fix_hours,notes\n2024-01-01,3, x".toList
        = ["date,time_to_fix_hours,notes".toList, "2024-01-01,3, x".toList] from by decide]
      at hl
    rcases List.mem_cons.1 hl with rfl | hl
    · exact ⟨cexHeaderFields, by decide, by decide, by decide⟩
    rcases List.mem_cons.1 hl with rfl | hl
    · exact ⟨cexDataFields, by decide, by decide, by decide⟩
    · simp at hl
  · decide

/-- C2 (amended): for every well-formed CSV input whose raw fields carry no
surrounding whitespace and whose data lines do not end in an empty field,
the loader's parsed table equals the standard quoted-CSV parse of the
original input (an unquoted colon-containing field is re-quoted textually
but parses to the same value). -/
theorem C2_amended (c : List Char) (hstrip : pyStrip c = c)
    (hdata : ∀ l ∈ (splitOnNl c).tail, CleanWFLine l) :
    loaderParsedTable c = parsedTable c := by
  rcases hsp : splitOnNl c with _ | ⟨h, t⟩
  · exact absurd hsp (splitOnNl_ne_nil c)
  · have hlines : linesOf c = h :: t := by rw [linesOf, hstrip, hsp]
    have hfl : fixedLinesList c = h :: t.map fixLine := by
      rw [fixedLinesList, hlines]
    have hnoh : '\n' ∉ h := mem_splitOnNl_no_nl c h (hsp ▸ List.mem_cons_self h t)
    have hnot : ∀ l ∈ t, '\n' ∉ l := fun l hl =>
      mem_splitOnNl_no_nl c l (hsp ▸ List.mem_cons_of_mem h hl)
    have hdata' : ∀ l ∈ t, CleanWFLine l := by
      intro l hl
      apply hdata
      rw [hsp]
      exact hl
    have hroundtrip : splitOnNl (fixedContent c) = h :: t.map fixLine := by
      rw [fixedContent, hfl]
      apply splitOnNl_joinSep _ (by simp)
      intro l hl
      rcases List.mem_cons.1 hl with rfl | hl
      · exact hnoh
      · obtain ⟨l0, hl0, rfl⟩ := List.mem_map.1 hl
        exact fixLine_no_nl l0 (hdata' l0 hl0) (hnot l0 hl0)
    rw [loaderParsedTable, parsedTable, hroundtrip]
    rw [parsedTable, hsp]
    simp only [List.map_cons, List.map_map]
    congr 1
    apply List.map_congr_left
    intro l hl
    show parseLineCSV (fixLine l) = parseLineCSV l
    obtain ⟨gs, g, hv, hg, hrender⟩ := hdata' l hl
    rw [← hrender]
    exact fixLine_parse gs g hv hg

/-- C2 (witness): the amended statement on a concrete document with an
unquoted colon-containing field. -/
theorem C2_witness :
    pyStrip "date,notes\n2024-01-01,x:1".toList = "date,notes\n2024-01-01,x:1".toList ∧
    loaderParsedTable "date,notes\n2024-01-01,x:1".toList =
      parsedTable "date,notes\n2024-01-01,x:1".toList := by
  refine ⟨by decide, C2_amended _ (by decide) ?_⟩
  intro l hl
  rw [show (splitOnNl "date,notes\n2024-01-01,x:1".toList).tail
      = ["2024-01-01,x:1".toList] from by decide] at hl
  rcases List.mem_cons.1 hl with rfl | hl
  · exact ⟨[.unquoted "2024-01-01".toList], .unquoted "x:1".toList,
      by decide, by decide, by decide⟩
  · simp at hl

/-- C8 (counterexample): the data row `a,Root cause: x, y,b`, whose middle
field `Root cause: x, y` is unquoted text with an embedded comma, comes out
of the repair split into two separate fields (`"Root cause: x"` and `y`);
the embedded-comma text is not re-assembled into a single field. -/
theorem C8_counterexample :
    joinSep [','] ["a".toList, "Root cause: x, y".toList, "b".toList]
      = "a,Root cause: x, y,b".toList ∧
    parseLineCSV (fixLine "a,Root cause: x, y,b".toList)
      = ["a".toList, "Root cause: x".toList, "y".toList, "b".toList] ∧
    "Root cause: x, y".toList ∉ parseLineCSV (fixLine "a,Root cause: x, y,b".toList) := by
  refine ⟨by decide, by decide, by decide⟩

/-- C8 (amended): embedded commas survive as part of a single field exactly
when they lie inside a quoted span: a quoted field containing commas is
kept as one field by the repair and parses back to its content, while the
embedded commas of a fully unquoted field remain split points. -/
theorem C8_amended (a m b : List Char) (ha1 : '"' ∉ a) (ha2 : ',' ∉ a)
    (ha3 : pyStrip a = a) (hb1 : '"' ∉ b) (hb2 : ',' ∉ b) (hb3 : pyStrip b = b)
    (hbne : b ≠ []) (hm : ',' ∈ m) :
    parseLineCSV (fixLine (renderLine [.unquoted a, .quoted m, .unquoted b]))
      = [a, m, b] := by
  have hv : ∀ f ∈ ([CsvField.unquoted a, CsvField.quoted m] ++ [CsvField.unquoted b]),
      ValidField f ∧ StripClean f := by
    intro f hf
    simp only [List.cons_append, List.nil_append, List.mem_cons,
      List.not_mem_nil, or_false] at hf
    rcases hf with rfl | rfl | rfl
    · exact ⟨⟨ha1, ha2⟩, ha3⟩
    · exact ⟨trivial, trivial⟩
    · exact ⟨⟨hb1, hb2⟩, hb3⟩
  have hg : renderField (CsvField.unquoted b) ≠ [] := hbne
  have hfs : ([CsvField.unquoted a, CsvField.quoted m] ++ [CsvField.unquoted b])
      = [CsvField.unquoted a, CsvField.quoted m, CsvField.unquoted b] := rfl
  rw [← hfs, fixLine_parse _ _ hv hg,
    parse_renderLine _ (by simp) (fun f hf => (hv f hf).1)]
  rfl

/-- C8 (witness): the amended statement on a quoted embedded-comma field. -/
theorem C8_witness :
    ',' ∈ "x,y".toList ∧
    parseLineCSV (fixLine (renderLine
      [.unquoted "a".toList, .quoted "x,y".toList, .unquoted "b".toList]))
      = ["a".toList, "x,y".toList, "b".toList] :=
  ⟨by decide, C8_amended _ _ _ (by decide) (by decide) (by decide) (by decide)
    (by decide) (by decide) (by decide) (by decide)⟩

/-! ### The cleaning pipeline: building blocks -/

theorem idxOf?_eq_none_iff (c : String) (l : List String) : idxOf? c l = none ↔ c ∉ l := by
  induction l with
  | nil => simp [idxOf?]
  | cons h t ih =>
    by_cases hc : h = c
    · subst hc
      simp [idxOf?]
    · rw [idxOf?, if_neg hc]
      simp only [Option.map_eq_none', ih, List.mem_cons, not_or]
      constructor
      · intro hnt
        exact ⟨fun he => hc he.symm, hnt⟩
      · intro hh
        exact hh.2

theorem idxOf?_some (c : String) (l : List String) (j : Nat) (h : idxOf? c l = some j) :
    j < l.length ∧ l.getD j "" = c := by
  induction l generalizing j with
  | nil => simp [idxOf?] at h
  | cons hd t ih =>
    by_cases hc : hd = c
    · rw [idxOf?, if_pos hc] at h
      obtain rfl := Option.some.inj h
      exact ⟨by simp, by simp [hc]⟩
    · rw [idxOf?, if_neg hc] at h
      cases hidx : idxOf? c t with
      | none => rw [hidx] at h; simp at h
      | some j0 =>
        rw [hidx] at h
        simp only [Option.map_some', Option.some.injEq] at h
        subst h
        obtain ⟨h1, h2⟩ := ih j0 hidx
        exact ⟨Nat.succ_lt_succ h1, by simpa using h2⟩

section Pipeline

variable {D N : Type}

theorem updateVals_length (j : Nat) (f : Val D N → Val D N) (r : List (Val D N)) :
    (updateVals j f r).length = r.length := by
  induction r generalizing j with
  | nil => simp [updateVals]
  | cons v t ih => cases j <;> simp [updateVals, ih]

theorem getD_updateVals_ne (j j' : Nat) (hne : j' ≠ j) (f : Val D N → Val D N)
    (r : List (Val D N)) (d : Val D N) :
    (updateVals j f r).getD j' d = r.getD j' d := by
  induction r generalizing j j' with
  | nil => simp [updateVals]
  | cons v t ih =>
    cases j with
    | zero =>
      cases j' with
      | zero => exact absurd rfl hne
      | succ j2 => simp [updateVals]
    | succ j0 =>
      cases j' with
      | zero => simp [updateVals]
      | succ j2 => simpa [updateVals] using ih j0 j2 (fun h => hne (by omega))

theorem getD_updateVals_self (j : Nat) (f : Val D N → Val D N) (r : List (Val D N))
    (d : Val D N) :
    (updateVals j f r).getD j d = if j < r.length then f (r.getD j d) else d := by
  induction r generalizing j with
  | nil => simp [updateVals]
  | cons v t ih =>
    cases j with
    | zero => simp [updateVals]
    | succ j0 => simpa [updateVals] using ih j0

theorem updateValsM_some_spec (j : Nat) (f : Val D N → Option (Val D N))
    (r r' : List (Val D N)) (h : updateValsM j f r = some r') :
    r'.length = r.length ∧
    (∀ j' d, j' ≠ j → r'.getD j' d = r.getD j' d) ∧
    (j < r.length → ∀ d, f (r.getD j d) = some (r'.getD j d)) := by
  induction r generalizing j r' with
  | nil =>
    obtain rfl : ([] : List (Val D N)) = r' := by
      simpa [updateValsM] using h
    exact ⟨rfl, fun _ _ _ => rfl, fun hj => by simp at hj⟩
  | cons v t ih =>
    cases j with
    | zero =>
      rw [updateValsM] at h
      cases hf : f v with
      | none => rw [hf] at h; simp at h
      | some w =>
        rw [hf] at h
        simp only [Option.map_some', Option.some.injEq] at h
        subst h
        refine ⟨by simp, ?_, ?_⟩
        · intro j' d hne
          cases j' with
          | zero => exact absurd rfl hne
          | succ j2 => simp
        · intro _ d
          simpa using hf
    | succ j0 =>
      rw [updateValsM] at h
      cases hrec : updateValsM j0 f t with
      | none => rw [hrec] at h; simp at h
      | some t' =>
        rw [hrec] at h
        simp only [Option.map_some', Option.some.injEq] at h
        subst h
        obtain ⟨hlen, hne, hself⟩ := ih j0 t' hrec
        refine ⟨by simp [hlen], ?_, ?_⟩
        · intro j' d hj'
          cases j' with
          | zero => simp
          | succ j2 => simpa using hne j2 d (fun hh => hj' (by omega))
        · intro hj d
          simpa using hself (by simpa using hj) d

theorem updateValsM_isSome (j : Nat) (f : Val D N → Option (Val D N))
    (r : List (Val D N)) (h : j < r.length → (f (r.getD j Val.na)).isSome) :
    (updateValsM j f r).isSome := by
  induction r generalizing j with
  | nil => simp [updateValsM]
  | cons v t ih =>
    cases j with
    | zero =>
      rw [updateValsM]
      have hv := h (by simp)
      simp only [List.getD_cons_zero] at hv
      cases hf : f v with
      | none => rw [hf] at hv; simp at hv
      | some w => simp
    | succ j0 =>
      rw [updateValsM]
      have := ih j0 (fun hj => by simpa using h (Nat.succ_lt_succ hj))
      cases hrec : updateValsM j0 f t with
      | none => rw [hrec] at this; simp at this
      | some t' => simp

theorem updateValsM_none (j : Nat) (f : Val D N → Option (Val D N))
    (r : List (Val D N)) (hj : j < r.length) (h : f (r.getD j Val.na) = none) :
    updateValsM j f r = none := by
  induction r generalizing j with
  | nil => simp at hj
  | cons v t ih =>
    cases j with
    | zero =>
      simp only [List.getD_cons_zero] at h
      simp [updateValsM, h]
    | succ j0 =>
      rw [updateValsM]
      rw [ih j0 (by simpa using hj) (by simpa using h)]
      rfl

theorem mapOpt_some_spec {α β : Type} (g : α → Option β) (l : List α) (r : List β)
    (h : mapOpt g l = some r) (da : α) (db : β) :
    r.length = l.length ∧ ∀ i, i < l.length → g (l.getD i da) = some (r.getD i db) := by
  induction l generalizing r with
  | nil =>
    obtain rfl : ([] : List β) = r := by simpa [mapOpt] using h
    exact ⟨rfl, fun i hi => by simp at hi⟩
  | cons a t ih =>
    rw [mapOpt] at h
    cases hga : g a with
    | none => rw [hga] at h; simp at h
    | some b =>
      rw [hga] at h
      cases hgt : mapOpt g t with
      | none => rw [hgt] at h; simp at h
      | some rt =>
        rw [hgt] at h
        simp only [Option.some.injEq] at h
        subst h
        obtain ⟨hlen, hel⟩ := ih rt hgt
        refine ⟨by simp [hlen], ?_⟩
        intro i hi
        cases i with
        | zero => simpa using hga
        | succ i0 => simpa using hel i0 (by simpa using hi)

theorem mapOpt_isSome {α β : Type} (g : α → Option β) (l : List α)
    (h : ∀ a ∈ l, (g a).isSome) : (mapOpt g l).isSome := by
  induction l with
  | nil => simp [mapOpt]
  | cons a t ih =>
    rw [mapOpt]
    have hga := h a (List.mem_cons_self a t)
    cases hg : g a with
    | none => rw [hg] at hga; simp at hga
    | some b =>
      have := ih (fun x hx => h x (List.mem_cons_of_mem a hx))
      cases hrec : mapOpt g t with
      | none => rw [hrec] at this; simp at this
      | some rt => simp

theorem mapOpt_eq_none {α β : Type} (g : α → Option β) (l : List α) (a : α)
    (ha : a ∈ l) (h : g a = none) : mapOpt g l = none := by
  induction l with
  | nil => simp at ha
  | cons x t ih =>
    rw [mapOpt]
    rcases List.mem_cons.1 ha with rfl | hat
    · rw [h]
    · rw [ih hat]
      cases g x <;> rfl

theorem getD_rows_map (u : List (Val D N) → List (Val D N)) (hu : u [] = [])
    (rows : List (List (Val D N))) (i : Nat) :
    (rows.map u).getD i [] = u (rows.getD i []) := by
  have h := getD_map u rows i []
  rw [hu] at h
  exact h

theorem getD_ne_default_lt {α : Type} (l : List α) (j : Nat) (d : α)
    (h : l.getD j d ≠ d) : j < l.length := by
  by_contra hge
  exact h (List.getD_eq_default l d (Nat.le_of_not_lt hge))

theorem applyDateCol_none (dp : String → Option D) (df : DataFrame D N)
    (h : idxOf? "date" df.header = none) : applyDateCol dp df = none := by
  simp only [applyDateCol, h]

theorem applyDateCol_eq (dp : String → Option D) (df : DataFrame D N) (j : Nat)
    (h : idxOf? "date" df.header = some j) :
    applyDateCol dp df
      = (mapOpt (updateValsM j (toDatetimeVal dp)) df.rows).map
          (fun rs => ⟨df.header, rs⟩) := by
  simp only [applyDateCol, h]

theorem applyDateCol_some_spec (dp : String → Option D) (df d1 : DataFrame D N)
    (h : applyDateCol dp df = some d1) :
    d1.header = df.header ∧ d1.rows.length = df.rows.length ∧
    ∃ j, idxOf? "date" df.header = some j ∧
      ∀ i, i < df.rows.length →
        updateValsM j (toDatetimeVal dp) (df.rows.getD i []) = some (d1.rows.getD i []) := by
  cases hidx : idxOf? "date" df.header with
  | none =>
    rw [applyDateCol_none dp df hidx] at h
    exact absurd h (by simp)
  | some j =>
    rw [applyDateCol_eq dp df j hidx] at h
    cases hm : mapOpt (updateValsM j (toDatetimeVal dp)) df.rows with
    | none => rw [hm] at h; simp at h
    | some rs =>
      rw [hm] at h
      simp only [Option.map_some', Option.some.injEq] at h
      subst h
      obtain ⟨hlen, hel⟩ := mapOpt_some_spec _ _ _ hm [] []
      exact ⟨rfl, hlen, j, rfl, fun i hi => hel i hi⟩

theorem applyNumCol_none (np : String → Option N) (df : DataFrame D N)
    (h : idxOf? "time_to_fix_hours" df.header = none) : applyNumCol np df = none := by
  simp only [applyNumCol, h]

theorem applyNumCol_some_spec (np : String → Option N) (df d2 : DataFrame D N)
    (h : applyNumCol np df = some d2) :
    d2.header = df.header ∧ d2.rows.length = df.rows.length ∧
    ∃ jt, idxOf? "time_to_fix_hours" df.header = some jt ∧
      ∀ i, d2.rows.getD i [] = updateVals jt (toNumericVal np) (df.rows.getD i []) := by
  cases hidx : idxOf? "time_to_fix_hours" df.header with
  | none =>
    rw [applyNumCol_none np df hidx] at h
    exact absurd h (by simp)
  | some jt =>
    rw [show applyNumCol np df
        = some ⟨df.header, df.rows.map (updateVals jt (toNumericVal np))⟩ from by
      simp only [applyNumCol, hidx]] at h
    obtain rfl := Option.some.inj h
    refine ⟨rfl, by simp, jt, rfl, ?_⟩
    intro i
    exact getD_rows_map _ (by simp [updateVals]) df.rows i

theorem applyNumCol_isSome (np : String → Option N) (df : DataFrame D N) (jt : Nat)
    (h : idxOf? "time_to_fix_hours" df.header = some jt) : (applyNumCol np df).isSome := by
  simp only [applyNumCol, h]
  rfl

theorem fillnaCol_header (df : DataFrame D N) (c : String) :
    (fillnaCol df c).header = df.header := by
  simp only [fillnaCol]
  cases idxOf? c df.header <;> rfl

theorem fillnaCol_rows_length (df : DataFrame D N) (c : String) :
    (fillnaCol df c).rows.length = df.rows.length := by
  simp only [fillnaCol]
  cases idxOf? c df.header <;> simp

theorem fillnaCol_getD_other (df : DataFrame D N) (c : String) (j : Nat) (nm : String)
    (hj : df.header.getD j "" = nm) (hne : nm ≠ c) (i : Nat) (d : Val D N) :
    ((fillnaCol df c).rows.getD i []).getD j d = (df.rows.getD i []).getD j d := by
  simp only [fillnaCol]
  cases hidx : idxOf? c df.header with
  | none => rfl
  | some jc =>
    have hjc := idxOf?_some c df.header jc hidx
    have hjne : j ≠ jc := by
      intro hcontra
      subst hcontra
      exact hne (hj.symm.trans hjc.2)
    show ((df.rows.map (updateVals jc fillVal)).getD i []).getD j d = _
    rw [getD_rows_map _ (by simp [updateVals]) df.rows i,
      getD_updateVals_ne jc j hjne]

theorem fillnaCol_getD_self (df : DataFrame D N) (c : String) (jc : Nat)
    (hidx : idxOf? c df.header = some jc) (i : Nat) :
    ((fillnaCol df c).rows.getD i []).getD jc Val.na
      = if jc < (df.rows.getD i []).length
        then fillVal ((df.rows.getD i []).getD jc Val.na) else Val.na := by
  simp only [fillnaCol, hidx]
  show ((df.rows.map (updateVals jc fillVal)).getD i []).getD jc Val.na = _
  rw [getD_rows_map _ (by simp [updateVals]) df.rows i,
    getD_updateVals_self]

theorem fillnaAll_eq (df : DataFrame D N) :
    fillnaAll df = fillnaCol (fillnaCol (fillnaCol df "risk_level") "status") "attack_type" :=
  rfl

theorem fillnaAll_header (df : DataFrame D N) : (fillnaAll df).header = df.header := by
  rw [fillnaAll_eq, fillnaCol_header, fillnaCol_header, fillnaCol_header]

theorem fillnaAll_rows_length (df : DataFrame D N) :
    (fillnaAll df).rows.length = df.rows.length := by
  rw [fillnaAll_eq, fillnaCol_rows_length, fillnaCol_rows_length, fillnaCol_rows_length]

theorem fillnaAll_getD_other (df : DataFrame D N) (j : Nat) (nm : String)
    (hj : df.header.getD j "" = nm) (h1 : nm ≠ "risk_level") (h2 : nm ≠ "status")
    (h3 : nm ≠ "attack_type") (i : Nat) (d : Val D N) :
    ((fillnaAll df).rows.getD i []).getD j d = (df.rows.getD i []).getD j d := by
  have ha : (fillnaCol df "risk_level").header = df.header := fillnaCol_header _ _
  have hb : (fillnaCol (fillnaCol df "risk_level") "status").header = df.header := by
    rw [fillnaCol_header, ha]
  rw [fillnaAll_eq,
    fillnaCol_getD_other _ "attack_type" j nm (by rw [hb]; exact hj) h3,
    fillnaCol_getD_other _ "status" j nm (by rw [ha]; exact hj) h2,
    fillnaCol_getD_other _ "risk_level" j nm hj h1]

theorem cellDateOkB_false (dp : String → Option D) (v : Val D N)
    (h : cellDateOkB dp v = false) : ∃ s, v = Val.str s ∧ dp s = none := by
  cases v with
  | na => simp [cellDateOkB] at h
  | str s =>
    refine ⟨s, rfl, ?_⟩
    cases hdp : dp s with
    | none => rfl
    | some d =>
      rw [show cellDateOkB dp (Val.str s) = (dp s).isSome from rfl, hdp] at h
      simp at h
  | date d => simp [cellDateOkB] at h
  | num x => simp [cellDateOkB] at h

theorem toDatetimeVal_isSome (dp : String → Option D) (v : Val D N)
    (h : cellDateOkB dp v = true) : (toDatetimeVal dp v).isSome := by
  cases v with
  | na => simp [toDatetimeVal]
  | str s =>
    simp only [cellDateOkB] at h
    simp [toDatetimeVal, Option.isSome_map', h]
  | date d => simp [toDatetimeVal]
  | num x => simp [toDatetimeVal]

theorem cellDatePresentB_true (dp : String → Option D) (v : Val D N)
    (h : cellDatePresentB dp v = true) : ∃ s d, v = Val.str s ∧ dp s = some d := by
  cases v with
  | na => simp [cellDatePresentB] at h
  | str s =>
    obtain ⟨d, hd⟩ := Option.isSome_iff_exists.1 h
    exact ⟨s, d, rfl, hd⟩
  | date d => simp [cellDatePresentB] at h
  | num x => simp [cellDatePresentB] at h

theorem getD_mem {α : Type} (l : List α) (i : Nat) (d : α) (h : i < l.length) :
    l.getD i d ∈ l := by
  induction l generalizing i with
  | nil => simp at h
  | cons a t ih =>
    cases i with
    | zero => simp
    | succ i0 => exact List.mem_cons_of_mem a (ih i0 (by simpa using h))

/-- C10: the coercion step reads the `date` and `time_to_fix_hours` columns
unconditionally, so a parsed frame lacking either aborts the load; when both
are present (and the dates parse) the load succeeds, whether or not any of
`risk_level`, `status`, `attack_type` exists. -/
theorem C10_required_columns (dp : String → Option D) (np : String → Option N)
    (df : DataFrame D N) :
    (("date" ∉ df.header ∨ "time_to_fix_hours" ∉ df.header) →
      cleanPipeline dp np df = none)
    ∧ (∀ j, idxOf? "date" df.header = some j →
        "time_to_fix_hours" ∈ df.header →
        (∀ r ∈ df.rows, cellDateOkB dp (r.getD j Val.na) = true) →
        (cleanPipeline dp np df).isSome) := by
  constructor
  · intro h
    rcases h with h | h
    · rw [cleanPipeline, applyDateCol_none dp df ((idxOf?_eq_none_iff _ _).2 h)]
      rfl
    · cases hd : applyDateCol dp df with
      | none => rw [cleanPipeline, hd]; rfl
      | some d1 =>
        have hh := (applyDateCol_some_spec dp df d1 hd).1
        rw [cleanPipeline, hd]
        simp only [Option.some_bind]
        rw [applyNumCol_none np d1 ((idxOf?_eq_none_iff _ _).2 (by rw [hh]; exact h))]
        rfl
  · intro j hj htime hdok
    have hds : (applyDateCol dp df).isSome := by
      rw [applyDateCol_eq dp df j hj, Option.isSome_map']
      exact mapOpt_isSome _ df.rows (fun r hr =>
        updateValsM_isSome j _ r (fun _ => toDatetimeVal_isSome dp _ (hdok r hr)))
    obtain ⟨d1, hd1⟩ := Option.isSome_iff_exists.1 hds
    have hh := (applyDateCol_some_spec dp df d1 hd1).1
    have hne : idxOf? "time_to_fix_hours" d1.header ≠ none := by
      rw [Ne, idxOf?_eq_none_iff, hh]
      exact fun hcon => hcon htime
    obtain ⟨jt, hjt⟩ := Option.ne_none_iff_exists'.1 hne
    rw [cleanPipeline, hd1]
    simp only [Option.some_bind]
    rw [Option.isSome_map']
    exact applyNumCol_isSome np d1 jt hjt

/-- C4 (counterexample): a frame with a missing `date` value (an empty CSV
field parses to the missing marker).  Every present date value parses, yet
the load does not abort and the surviving row has no calendar date in
`date` — against both readings of the claim, a missing value neither aborts
the load nor yields a valid date. -/
theorem C4_counterexample :
    dfNaDate.rows.all (fun r => cellDateOkB dp0 (r.getD 0 Val.na)) = true
    ∧ cleanPipeline dp0 np0 dfNaDate = some dfNaDateOut
    ∧ dfNaDateOut.rows.all (fun r => isDateCell (r.getD 0 Val.na)) = false := by
  refine ⟨by decide, by decide, by decide⟩

/-- C4 (amended): if any present value of the `date` column is unparsable
the whole load aborts with no table; when every `date` value is present and
parsable, every row of the output has a calendar date in `date`.  (A missing
`date` value neither aborts the load nor produces a date: it passes through
as missing.) -/
theorem C4_amended (dp : String → Option D) (np : String → Option N)
    (df : DataFrame D N) (j : Nat) (hj : idxOf? "date" df.header = some j) :
    ((∃ r ∈ df.rows, cellDateOkB dp (r.getD j Val.na) = false) →
      cleanPipeline dp np df = none)
    ∧ ((∀ r ∈ df.rows, cellDatePresentB dp (r.getD j Val.na) = true) →
        ∀ out, cleanPipeline dp np df = some out →
          out.rows.length = df.rows.length ∧
          ∀ i, i < out.rows.length →
            isDateCell ((out.rows.getD i []).getD j Val.na) = true) := by
  constructor
  · rintro ⟨r, hr, hfalse⟩
    obtain ⟨s, hcell, hdp⟩ := cellDateOkB_false dp _ hfalse
    have hjr : j < r.length := getD_ne_default_lt r j Val.na (by rw [hcell]; simp)
    have hnone : updateValsM j (toDatetimeVal dp) r = none := by
      apply updateValsM_none j _ r hjr
      rw [hcell]
      show (dp s).map Val.date = none
      rw [hdp]
      rfl
    rw [cleanPipeline, applyDateCol_eq dp df j hj,
      mapOpt_eq_none _ df.rows r hr hnone]
    rfl
  · intro hpres out hout
    cases hd : applyDateCol dp df with
    | none => rw [cleanPipeline, hd] at hout; simp at hout
    | some d1 =>
      rw [cleanPipeline, hd] at hout
      simp only [Option.some_bind] at hout
      cases hn : applyNumCol np d1 with
      | none => rw [hn] at hout; simp at hout
      | some d2 =>
        rw [hn] at hout
        simp only [Option.map_some', Option.some.injEq] at hout
        subst hout
        obtain ⟨hh1, hl1, j', hj', hpt⟩ := applyDateCol_some_spec dp df d1 hd
        have hjj : j = j' := Option.some.inj (hj.symm.trans hj')
        subst hjj
        obtain ⟨hh2, hl2, jt, hjt, hpt2⟩ := applyNumCol_some_spec np d1 d2 hn
        have hnamej : df.header.getD j "" = "date" := (idxOf?_some _ _ _ hj).2
        have hnamejt : d1.header.getD jt "" = "time_to_fix_hours" :=
          (idxOf?_some _ _ _ hjt).2
        have hjtne : jt ≠ j := by
          intro hcontra
          rw [hcontra, hh1, hnamej] at hnamejt
          exact absurd hnamejt (by decide)
        refine ⟨by rw [fillnaAll_rows_length, hl2, hl1], ?_⟩
        intro i hi
        have hi' : i < df.rows.length := by
          rw [fillnaAll_rows_length, hl2, hl1] at hi
          exact hi
        obtain ⟨hrl, hrne, hrself⟩ := updateValsM_some_spec _ _ _ _ (hpt i hi')
        obtain ⟨s, dv, hcell, hdp⟩ :=
          cellDatePresentB_true dp _ (hpres (df.rows.getD i []) (getD_mem _ _ _ hi'))
        have hjlt : j < (df.rows.getD i []).length :=
          getD_ne_default_lt _ j Val.na (by rw [hcell]; simp)
        have hdate := hrself hjlt Val.na
        rw [hcell, show toDatetimeVal dp (Val.str s) = (dp s).map Val.date from rfl,
          hdp] at hdate
        have hd1cell : (d1.rows.getD i []).getD j Val.na = Val.date dv :=
          (Option.some.inj hdate).symm
        rw [fillnaAll_getD_other d2 j "date" (by rw [hh2, hh1]; exact hnamej)
          (by decide) (by decide) (by decide) i Val.na]
        rw [hpt2 i, getD_updateVals_ne jt j (Ne.symm hjtne), hd1cell]
        rfl

theorem fillnaCol_row_length (df : DataFrame D N) (c : String) (i : Nat) :
    ((fillnaCol df c).rows.getD i []).length = (df.rows.getD i []).length := by
  simp only [fillnaCol]
  cases hidx : idxOf? c df.header with
  | none => rfl
  | some jc =>
    show ((df.rows.map (updateVals jc fillVal)).getD i []).length = _
    rw [getD_rows_map _ (by simp [updateVals]) df.rows i, updateVals_length]

theorem fillnaAll_getD_fillcol (df : DataFrame D N) (c : String) (jc : Nat)
    (hc : c ∈ str_cols_to_fill) (hjc : idxOf? c df.header = some jc) (i : Nat)
    (hjlt : jc < (df.rows.getD i []).length) :
    ((fillnaAll df).rows.getD i []).getD jc Val.na
      = fillVal ((df.rows.getD i []).getD jc Val.na) := by
  have hname : df.header.getD jc "" = c := (idxOf?_some _ _ _ hjc).2
  have hra : (fillnaCol df "risk_level").header = df.header := fillnaCol_header _ _
  have hrb : (fillnaCol (fillnaCol df "risk_level") "status").header = df.header := by
    rw [fillnaCol_header, hra]
  simp only [str_cols_to_fill, List.mem_cons, List.not_mem_nil, or_false] at hc
  rcases hc with rfl | rfl | rfl
  · rw [fillnaAll_eq,
      fillnaCol_getD_other _ "attack_type" jc "risk_level"
        (by rw [hrb]; exact hname) (by decide) i Val.na,
      fillnaCol_getD_other _ "status" jc "risk_level"
        (by rw [hra]; exact hname) (by decide) i Val.na,
      fillnaCol_getD_self df "risk_level" jc hjc i, if_pos hjlt]
  · rw [fillnaAll_eq,
      fillnaCol_getD_other _ "attack_type" jc "status"
        (by rw [hrb]; exact hname) (by decide) i Val.na,
      fillnaCol_getD_self (fillnaCol df "risk_level") "status" jc
        (by rw [hra]; exact hjc) i,
      if_pos (by rw [fillnaCol_row_length]; exact hjlt),
      fillnaCol_getD_other df "risk_level" jc "status" hname (by decide) i Val.na]
  · rw [fillnaAll_eq,
      fillnaCol_getD_self (fillnaCol (fillnaCol df "risk_level") "status")
        "attack_type" jc (by rw [hrb]; exact hjc) i,
      if_pos (by rw [fillnaCol_row_length, fillnaCol_row_length]; exact hjlt),
      fillnaCol_getD_other _ "status" jc "attack_type"
        (by rw [hra]; exact hname) (by decide) i Val.na,
      fillnaCol_getD_other df "risk_level" jc "attack_type" hname (by decide) i Val.na]

/-- C5: given the date step succeeded and the `time_to_fix_hours` column
exists, the load never aborts on unparsable `time_to_fix_hours` values; the
output has exactly the input's rows, an unparsable value comes out as the
missing marker, and the column holds only numbers or the missing marker
(never a non-numeric string). -/
theorem C5_time_coercion (dp : String → Option D) (np : String → Option N)
    (df : DataFrame D N) (jt : Nat)
    (hjt : idxOf? "time_to_fix_hours" df.header = some jt)
    (d1 : DataFrame D N) (hd1 : applyDateCol dp df = some d1) :
    (cleanPipeline dp np df).isSome
    ∧ ∀ out, cleanPipeline dp np df = some out →
        out.rows.length = df.rows.length
        ∧ (∀ i s, i < df.rows.length →
            (df.rows.getD i []).getD jt Val.na = Val.str s → np s = none →
            (out.rows.getD i []).getD jt Val.na = Val.na)
        ∧ (∀ i, i < df.rows.length →
            isDateCell ((df.rows.getD i []).getD jt Val.na) = false →
            isNumOrNa ((out.rows.getD i []).getD jt Val.na) = true) := by
  obtain ⟨hh1, hl1, jd, hjd, hpt⟩ := applyDateCol_some_spec dp df d1 hd1
  have hjt1 : idxOf? "time_to_fix_hours" d1.header = some jt := by
    rw [hh1]; exact hjt
  constructor
  · rw [cleanPipeline, hd1]
    simp only [Option.some_bind]
    rw [Option.isSome_map']
    exact applyNumCol_isSome np d1 jt hjt1
  · intro out hout
    rw [cleanPipeline, hd1] at hout
    simp only [Option.some_bind] at hout
    cases hn : applyNumCol np d1 with
    | none => rw [hn] at hout; simp at hout
    | some d2 =>
      rw [hn] at hout
      simp only [Option.map_some', Option.some.injEq] at hout
      subst hout
      obtain ⟨hh2, hl2, jt', hjt', hpt2⟩ := applyNumCol_some_spec np d1 d2 hn
      have hjj : jt = jt' := Option.some.inj (hjt1.symm.trans hjt')
      subst hjj
      have hnamejd : df.header.getD jd "" = "date" := (idxOf?_some _ _ _ hjd).2
      have hnamejt : df.header.getD jt "" = "time_to_fix_hours" :=
        (idxOf?_some _ _ _ hjt).2
      have hne : jd ≠ jt := by
        intro hcontra
        rw [hcontra, hnamejt] at hnamejd
        exact absurd hnamejd (by decide)
      have hcell1 : ∀ i, i < df.rows.length →
          (d1.rows.getD i []).getD jt Val.na = (df.rows.getD i []).getD jt Val.na := by
        intro i hi
        obtain ⟨hrl, hrne, _⟩ := updateValsM_some_spec _ _ _ _ (hpt i hi)
        exact hrne jt Val.na (Ne.symm hne)
      have hfill : ∀ i, ((fillnaAll d2).rows.getD i []).getD jt Val.na
          = (d2.rows.getD i []).getD jt Val.na := fun i =>
        fillnaAll_getD_other d2 jt "time_to_fix_hours" (by rw [hh2, hh1]; exact hnamejt)
          (by decide) (by decide) (by decide) i Val.na
      refine ⟨by rw [fillnaAll_rows_length, hl2, hl1], ?_, ?_⟩
      · intro i s hi hcell hnp
        obtain ⟨hrl, -, -⟩ := updateValsM_some_spec _ _ _ _ (hpt i hi)
        have hjlt : jt < (d1.rows.getD i []).length := by
          rw [hrl]
          exact getD_ne_default_lt _ jt Val.na (by rw [hcell]; simp)
        rw [hfill i, hpt2 i, getD_updateVals_self, if_pos hjlt, hcell1 i hi, hcell]
        show (match np s with | some x => Val.num x | none => Val.na) = Val.na
        rw [hnp]
      · intro i hi hnotdate
        rw [hfill i, hpt2 i, getD_updateVals_self]
        by_cases hjlt : jt < (d1.rows.getD i []).length
        · rw [if_pos hjlt, hcell1 i hi]
          cases hc : (df.rows.getD i []).getD jt Val.na with
          | na => rfl
          | str s =>
            show isNumOrNa (match np s with | some x => Val.num x | none => Val.na) = true
            cases np s <;> rfl
          | num x => rfl
          | date d =>
            rw [hc] at hnotdate
            simp [isDateCell] at hnotdate
        · rw [if_neg hjlt]
          rfl

/-- C6: for each of `risk_level`, `status`, `attack_type` that exists in
the parsed frame (whose rows cover the column and contain no empty-string
cell there, as parsed frames do), the cleaned output retains every row, has
no absent and no empty value in that column, and every missing value has
become the literal string `"N/A"`. -/
theorem C6_categorical_fill (dp : String → Option D) (np : String → Option N)
    (df : DataFrame D N) (c : String) (jc : Nat)
    (hc : c ∈ str_cols_to_fill) (hjc : idxOf? c df.header = some jc)
    (hlen : ∀ i, i < df.rows.length → jc < (df.rows.getD i []).length)
    (hnoempty : ∀ i, i < df.rows.length →
      (df.rows.getD i []).getD jc Val.na ≠ Val.str "")
    (out : DataFrame D N) (hout : cleanPipeline dp np df = some out) :
    out.rows.length = df.rows.length
    ∧ (∀ i, i < out.rows.length →
        (out.rows.getD i []).getD jc Val.na ≠ Val.na
        ∧ (out.rows.getD i []).getD jc Val.na ≠ Val.str "")
    ∧ (∀ i, i < df.rows.length → (df.rows.getD i []).getD jc Val.na = Val.na →
        (out.rows.getD i []).getD jc Val.na = Val.str "N/A") := by
  have hcd : c ≠ "date" := by
    simp only [str_cols_to_fill, List.mem_cons, List.not_mem_nil, or_false] at hc
    rcases hc with rfl | rfl | rfl <;> decide
  have hct : c ≠ "time_to_fix_hours" := by
    simp only [str_cols_to_fill, List.mem_cons, List.not_mem_nil, or_false] at hc
    rcases hc with rfl | rfl | rfl <;> decide
  cases hd : applyDateCol dp df with
  | none => rw [cleanPipeline, hd] at hout; simp at hout
  | some d1 =>
    rw [cleanPipeline, hd] at hout
    simp only [Option.some_bind] at hout
    cases hn : applyNumCol np d1 with
    | none => rw [hn] at hout; simp at hout
    | some d2 =>
      rw [hn] at hout
      simp only [Option.map_some', Option.some.injEq] at hout
      subst hout
      obtain ⟨hh1, hl1, jd, hjd, hpt⟩ := applyDateCol_some_spec dp df d1 hd
      obtain ⟨hh2, hl2, jt, hjt, hpt2⟩ := applyNumCol_some_spec np d1 d2 hn
      have hnamec : df.header.getD jc "" = c := (idxOf?_some _ _ _ hjc).2
      have hnamejd : df.header.getD jd "" = "date" := (idxOf?_some _ _ _ hjd).2
      have hnamejt : d1.header.getD jt "" = "time_to_fix_hours" :=
        (idxOf?_some _ _ _ hjt).2
      have hnejd : jd ≠ jc := by
        intro hcontra
        rw [hcontra, hnamec] at hnamejd
        exact hcd hnamejd
      have hnejt : jt ≠ jc := by
        intro hcontra
        rw [hcontra, hh1, hnamec] at hnamejt
        exact hct hnamejt
      have hcell1 : ∀ i, i < df.rows.length →
          (d1.rows.getD i []).getD jc Val.na = (df.rows.getD i []).getD jc Val.na := by
        intro i hi
        obtain ⟨-, hrne, -⟩ := updateValsM_some_spec _ _ _ _ (hpt i hi)
        exact hrne jc Val.na (Ne.symm hnejd)
      have hcell2 : ∀ i, i < df.rows.length →
          (d2.rows.getD i []).getD jc Val.na = (df.rows.getD i []).getD jc Val.na := by
        intro i hi
        rw [hpt2 i, getD_updateVals_ne jt jc (Ne.symm hnejt)]
        exact hcell1 i hi
      have hrowlen2 : ∀ i, i < df.rows.length →
          jc < (d2.rows.getD i []).length := by
        intro i hi
        obtain ⟨hrl, -, -⟩ := updateValsM_some_spec _ _ _ _ (hpt i hi)
        rw [hpt2 i, updateVals_length, hrl]
        exact hlen i hi
      have hjc2 : idxOf? c d2.header = some jc := by
        rw [hh2, hh1]
        exact hjc
      have hfinal : ∀ i, i < df.rows.length →
          ((fillnaAll d2).rows.getD i []).getD jc Val.na
            = fillVal ((df.rows.getD i []).getD jc Val.na) := by
        intro i hi
        rw [fillnaAll_getD_fillcol d2 c jc hc hjc2 i (hrowlen2 i hi), hcell2 i hi]
      refine ⟨by rw [fillnaAll_rows_length, hl2, hl1], ?_, ?_⟩
      · intro i hi
        have hi' : i < df.rows.length := by
          rw [fillnaAll_rows_length, hl2, hl1] at hi
          exact hi
        rw [hfinal i hi']
        cases hcv : (df.rows.getD i []).getD jc Val.na with
        | na => exact ⟨by simp [fillVal], by simp [fillVal]⟩
        | str s =>
          refine ⟨by simp [fillVal], ?_⟩
          have := hnoempty i hi'
          rw [hcv] at this
          simp only [fillVal, ne_eq, Val.str.injEq]
          intro hcontra
          exact this (by rw [hcontra])
        | date d => exact ⟨by simp [fillVal], by simp [fillVal]⟩
        | num x => exact ⟨by simp [fillVal], by simp [fillVal]⟩
      · intro i hi hna
        rw [hfinal i hi, hna]
        rfl

end Pipeline

/-- C5 (witness): the unparsable value `"unknown"` is blanked, the row is
kept, and the load succeeds. -/
theorem C5_witness :
    (cleanPipeline dp0 np0 dfFull).isSome ∧
    (dfFullOut.rows.getD 0 []).getD 2 Val.na = Val.na :=
  ⟨(C5_time_coercion dp0 np0 dfFull 2 (by decide)
      ⟨["date", "risk_level", "time_to_fix_hours"],
       [[.date 20240101, .na, .str "unknown"]]⟩ (by decide)).1,
   (((C5_time_coercion dp0 np0 dfFull 2 (by decide)
      ⟨["date", "risk_level", "time_to_fix_hours"],
       [[.date 20240101, .na, .str "unknown"]]⟩ (by decide)).2 dfFullOut
      (by decide)).2.1 0 "unknown" (by decide) (by decide) (by decide))⟩

/-- C6 (witness): the empty `risk_level` of the one row becomes `"N/A"` and
the row is retained. -/
theorem C6_witness :
    dfFullOut.rows.length = dfFull.rows.length ∧
    (dfFullOut.rows.getD 0 []).getD 1 Val.na = Val.str "N/A" :=
  ⟨(C6_categorical_fill dp0 np0 dfFull "risk_level" 1 (by decide) (by decide)
      (by decide) (by decide) dfFullOut (by decide)).1,
   (C6_categorical_fill dp0 np0 dfFull "risk_level" 1 (by decide) (by decide)
      (by decide) (by decide) dfFullOut (by decide)).2.2 0 (by decide) (by decide)⟩

/-- C10 (witness): both parts on concrete frames. -/
theorem C10_witness :
    cleanPipeline dp0 np0 dfNoDate = none ∧ (cleanPipeline dp0 np0 dfFull).isSome :=
  ⟨(C10_required_columns dp0 np0 dfNoDate).1 (Or.inl (by decide)),
   (C10_required_columns dp0 np0 dfFull).2 0 (by decide) (by decide) (by decide)⟩

/-- C4 (witness): an unparsable present date aborts; all-present-parsable
dates yield calendar dates in every output row. -/
theorem C4_witness :
    cleanPipeline dp0 np0 dfBadDate = none ∧
    isDateCell ((dfFullOut.rows.getD 0 []).getD 0 Val.na) = true :=
  ⟨(C4_amended dp0 np0 dfBadDate 0 (by decide)).1
     ⟨[Val.str "nope", Val.str "3"], by decide, by decide⟩,
   ((C4_amended dp0 np0 dfFull 0 (by decide)).2 (by decide) dfFullOut
     (by decide)).2 0 (by decide)⟩

/-! ### The load routine's failure policy and the cache -/

/-- C3: the loader's failure behavior — a missing file is fatal with no
table; a failed parse of the corrected document falls back to a lenient
parse of the original document and surfaces the non-fatal skip warning; a
failed lenient retry is fatal; and the lenient parse keeps exactly the data
rows whose token count equals the header's column count. -/
theorem C3_fallback_policy {D N : Type} (dp : String → Option D) (np : String → Option N)
    (strict lenient : List Char → Option (DataFrame D N)) :
    load_data dp np strict lenient none = LoadOutcome.fatal "file not found"
    ∧ (∀ content df, strict (fixedContent content) = none → lenient content = some df →
        load_data dp np strict lenient (some content)
          = finishClean dp np [skippedWarning] df)
    ∧ (∀ content, strict (fixedContent content) = none → lenient content = none →
        load_data dp np strict lenient (some content) = LoadOutcome.fatal "critical error")
    ∧ (∀ c (df : DataFrame D N), readCsvLenient c = some df →
        ∀ r ∈ df.rows, r.length = df.header.length) := by
  refine ⟨rfl, ?_, ?_, ?_⟩
  · intro content df hs hl
    simp only [load_data, hs, hl]
  · intro content hs hl
    simp only [load_data, hs, hl]
  · intro c df h
    cases hsp : (splitOnNl c).filter (fun l => !l.isEmpty) with
    | nil =>
      rw [readCsvLenient, hsp] at h
      exact absurd h (by simp)
    | cons hd t =>
      rw [readCsvLenient, hsp] at h
      simp only [Option.some.injEq] at h
      subst h
      intro r hr
      simp only [List.mem_map] at hr
      obtain ⟨r0, hr0, rfl⟩ := hr
      have hflt := List.of_mem_filter hr0
      simp only [beq_iff_eq] at hflt
      simpa using hflt

/-- C3 (witness): the fallback scenarios on a concrete strict-parse failure. -/
theorem C3_witness :
    load_data dp0 np0 strictFail lenientConst
        (some "date,time_to_fix_hours\n2024-01-01,3".toList)
      = finishClean dp0 np0 [skippedWarning] dfFull
    ∧ load_data dp0 np0 strictFail lenientConst none = LoadOutcome.fatal "file not found" :=
  ⟨(C3_fallback_policy dp0 np0 strictFail lenientConst).2.1 _ dfFull rfl rfl,
   (C3_fallback_policy dp0 np0 strictFail lenientConst).1⟩

/-- C7: loading the same path twice through the cache returns the identical
outcome; on the second call the cached value is returned, the underlying
load (file read and parse) is not invoked, and the cache is unchanged. -/
theorem C7_cache_idempotent {D N : Type} (dp : String → Option D) (np : String → Option N)
    (strict lenient : List Char → Option (DataFrame D N))
    (fsys : String → Option (List Char))
    (st : List (String × LoadOutcome (DataFrame D N))) (path : String) :
    (load_data_cached dp np strict lenient fsys
        ((load_data_cached dp np strict lenient fsys st path).2.1) path).1
      = (load_data_cached dp np strict lenient fsys st path).1
    ∧ (load_data_cached dp np strict lenient fsys
        ((load_data_cached dp np strict lenient fsys st path).2.1) path).2.2 = false
    ∧ (load_data_cached dp np strict lenient fsys
        ((load_data_cached dp np strict lenient fsys st path).2.1) path).2.1
      = (load_data_cached dp np strict lenient fsys st path).2.1 := by
  simp only [load_data_cached, cachedCall]
  cases hl : lookupC path st with
  | some v => simp [hl]
  | none => simp [lookupC]

end SecDash
